import Mathlib

/-!
# CloudWatch alarm lookup (`internal/pkg/aws/cloudwatch/cloudwatch.go`)

A shallow embedding of the package `cloudwatch`.

* Go `string` is `String`; the only separator the code splits on is the
  one-byte `":"`, so splitting is done on the character list.
* A Go pointer that may be nil (`*string`, `*time.Time`, `*CompositeAlarm`, ...) is an
  `Option`; dereferencing `none` is a panic, which the embedding makes explicit.
* A slice is a `List`; the nil slice is `[]` (the code never builds an empty non-nil slice).
* An `error` is its message; `fmt.Errorf("ctx: %w", err)` is `"ctx: " ++ err`.
* The two remote clients are step functions on a state, so that a client may answer
  differently on each call; every call is recorded in the run's event list.
* The two `for { ... }` loops have no bound in the source; the embedding gives every
  loop a number of iterations it may use and reports `outOfFuel` when that is used up.
-/

namespace cloudwatch

/-! ## Constants -/

def resourceQueryType : String := "TAG_FILTERS_1_0"
def cloudwatchResourceType : String := "AWS::CloudWatch::Alarm"
def compositeAlarmType : String := "Composite"
def metricAlarmType : String := "Metric"

/-! ## `strings` (Go standard library) -/

/-- Go `strings.Cut(s, ":")` on characters: the text before and after the first colon,
or `none` when there is no colon (`strings.Index` returning `-1`). -/
def cutColon : List Char → Option (List Char × List Char)
  | [] => none
  | c :: cs =>
    if c = ':' then some ([], cs)
    else match cutColon cs with
      | none => none
      | some (a, b) => some (c :: a, b)

/-- Go `strings.Count(s, ":")`. -/
def countColon (s : List Char) : Nat := s.count ':'

/-- The loop of `strings.genSplit(s, ":", 0, n)` for `n > 0`: `n - 1` cuts at most, the
remainder unsplit in the last piece. -/
def genSplit : Nat → List Char → List (List Char)
  | 0, _ => []
  | 1, s => [s]
  | n + 2, s =>
    match cutColon s with
    | none => [s]
    | some (a, b) => a :: genSplit (n + 1) b

/-- Go `strings.SplitN(s, ":", n)` for `n ≥ 0`. -/
def SplitN (s : String) (n : Nat) : List String :=
  (genSplit n s.data).map String.mk

/-- Go `strings.Split(s, ":")`: `genSplit` with `n = Count(s, ":") + 1`. -/
def Split (s : String) : List String :=
  (genSplit (countColon s.data + 1) s.data).map String.mk

/-- Go `strings.HasPrefix(s, p)`. -/
def HasPrefix (s p : String) : Bool := p.data.isPrefixOf s.data

/-! ## `arn.Parse` (AWS SDK for Go, `aws/arn`) -/

/-- The struct `arn.ARN` of the AWS SDK. -/
structure ARN where
  Partition : String
  Service : String
  Region : String
  AccountID : String
  Resource : String
deriving DecidableEq, Repr

deriving instance DecidableEq for Except

def arnSections : Nat := 6
def arnPrefix : String := "arn:"
def invalidPrefix : String := "arn: invalid prefix"
def invalidSections : String := "arn: not enough sections"

/-- The function `arn.Parse` of the AWS SDK for Go (`aws/arn/arn.go`), which the package
imports: the string must start with `arn:` and
`strings.SplitN(arn, ":", 6)` must give 6 sections; the sixth, unsplit, is the resource. -/
def Parse (arn : String) : Except String ARN :=
  if !HasPrefix arn arnPrefix then .error invalidPrefix
  else
    match SplitN arn arnSections with
    | [_, partition, service, region, account, resource] =>
      .ok { Partition := partition, Service := service, Region := region,
            AccountID := account, Resource := resource }
    | _ => .error invalidSections

/-! ## `getAlarmName` -/

/-- The method `getAlarmName`: the alarm name of an alarm ARN; an error when the ARN does not parse
or its resource does not split on `:` into exactly two parts. -/
def getAlarmName (alarmArn : String) : Except String String :=
  match Parse alarmArn with
  | .error err => .error ("parse alarm ARN " ++ alarmArn ++ ": " ++ err)
  | .ok resp =>
    match Split resp.Resource with
    | [_, name] => .ok name
    | _ => .error ("cannot parse alarm ARN resource " ++ resp.Resource)


/-! ## Records of the two services -/

/-- The struct `AlarmStatus`; its field `Type` is `Type_` here, `Type` being a keyword. -/
structure AlarmStatus where
  Arn : String
  Name : String
  Reason : String
  Status : String
  Type_ : String
  UpdatedTimes : Int
deriving DecidableEq, Repr

/-- A `time.Time`, kept as what the code reads of it: the value of `Unix()`. -/
structure Time where
  Unix : Int
deriving DecidableEq, Repr

/-- The fields of `cloudwatch.CompositeAlarm` the code reads, and the rule expression
that only a composite alarm has. -/
structure CompositeAlarm where
  AlarmArn : Option String
  AlarmName : Option String
  StateReason : Option String
  StateValue : Option String
  StateUpdatedTimestamp : Option Time
  AlarmRule : Option String
deriving DecidableEq, Repr

/-- The fields of `cloudwatch.MetricAlarm` the code reads, and the metric name that only
a metric alarm has. -/
structure MetricAlarm where
  AlarmArn : Option String
  AlarmName : Option String
  StateReason : Option String
  StateValue : Option String
  StateUpdatedTimestamp : Option Time
  MetricName : Option String
deriving DecidableEq, Repr

/-- The struct `cloudwatch.DescribeAlarmsInput`, as the code fills it. `AlarmNames` is a
`[]*string` whose elements all come from `aws.String`, so none of them is nil. -/
structure DescribeAlarmsInput where
  AlarmNames : List String
  NextToken : Option String
deriving DecidableEq, Repr

/-- The struct `cloudwatch.DescribeAlarmsOutput`; both lists are slices of pointers. -/
structure DescribeAlarmsOutput where
  CompositeAlarms : List (Option CompositeAlarm)
  MetricAlarms : List (Option MetricAlarm)
  NextToken : Option String
deriving DecidableEq, Repr

/-- The struct `resourcegroups.ResourceQuery`. -/
structure ResourceQuery where
  Type_ : Option String
  Query : Option String
deriving DecidableEq, Repr

/-- The struct `resourcegroups.SearchResourcesInput`, as the code fills it. -/
structure SearchResourcesInput where
  NextToken : Option String
  ResourceQuery : Option ResourceQuery
deriving DecidableEq, Repr

/-- The struct `resourcegroups.ResourceIdentifier`; the code reads `ResourceArn` only. -/
structure ResourceIdentifier where
  ResourceArn : Option String
deriving DecidableEq, Repr

/-- The struct `resourcegroups.SearchResourcesOutput`; a slice of pointers and a token. -/
structure SearchResourcesOutput where
  NextToken : Option String
  ResourceIdentifiers : List (Option ResourceIdentifier)
deriving DecidableEq, Repr

/-- What `SearchResources` returns: `(*SearchResourcesOutput, error)`. -/
abbrev SearchRet := Option SearchResourcesOutput × Option String

/-- What `DescribeAlarms` returns: `(*DescribeAlarmsOutput, error)`. -/
abbrev DescribeRet := Option DescribeAlarmsOutput × Option String

/-- The struct `CloudWatch`: the two embedded client interfaces, each a step function on
the state `σ` of the world behind them. -/
structure CloudWatch (σ : Type) where
  DescribeAlarms : σ → DescribeAlarmsInput → DescribeRet × σ
  SearchResources : σ → SearchResourcesInput → SearchRet × σ

/-- One remote call: what was sent and what came back. -/
inductive Event where
  | search (input : SearchResourcesInput) (ret : SearchRet)
  | describe (input : DescribeAlarmsInput) (ret : DescribeRet)
deriving DecidableEq, Repr

/-- How a block of the code ends: it falls through with a value, it returns
`nil, err`, it panics on a nil pointer, or the iterations allowed are used up. -/
inductive Flow (α : Type) where
  | next (a : α)
  | fail (err : String)
  | panic
  | outOfFuel
deriving DecidableEq, Repr

/-- A stage of the run: how it ended, the calls it made, the state it left. -/
structure Stage (σ α : Type) where
  result : Flow α
  events : List Event
  state : σ

/-- How a call of `GetAlarmsWithTags` ends: it returns its pair `([]AlarmStatus, error)`,
it panics, or the iterations allowed are used up. -/
inductive Outcome where
  | returned (alarmStatus : List AlarmStatus) (err : Option String)
  | panicked
  | outOfFuel
deriving DecidableEq, Repr

/-- A run of `GetAlarmsWithTags`: how it ended and the remote calls it made, in order. -/
structure Run where
  outcome : Outcome
  events : List Event
deriving DecidableEq, Repr

/-! ## `searchResourceQuery` -/

/-- The local struct `keyVal`. -/
structure keyVal where
  Key : String
  Values : List String
deriving DecidableEq, Repr

/-- The local struct `query`. -/
structure query where
  ResourceTypeFilters : List String
  TagFilters : List keyVal
deriving DecidableEq, Repr

/-- The loop `for k, v := range tags` of `searchResourceQuery`, over the entries of the
map in the order `range` yields them, appending to `keyVals`. -/
def rangeTags : List (String × String) → List keyVal → List keyVal
  | [], keyVals => keyVals
  | (k, v) :: rest, keyVals => rangeTags rest (keyVals ++ [{ Key := k, Values := [v] }])

/-- The value `queryStruct` that `searchResourceQuery` builds. -/
def queryStruct (tags : List (String × String)) : query :=
  { ResourceTypeFilters := [cloudwatchResourceType], TagFilters := rangeTags tags [] }

/-- The method `searchResourceQuery`; `marshal` is `json.Marshal` at the type `query`. -/
def searchResourceQuery (marshal : query → Except String String)
    (tags : List (String × String)) : Except String String :=
  marshal (queryStruct tags)

/-! ## Normalisation -/

/-- The function `aws.StringValue`: the string pointed to, or `""` for nil. -/
def StringValue : Option String → String
  | some s => s
  | none => ""

/-- The loop of `compositeAlarmsStatus`; `none` is the panic of a nil dereference
(`alarm.AlarmArn` on a nil alarm, `.Unix()` on a nil `*time.Time`). -/
def compositeAlarmsStatusLoop :
    List (Option CompositeAlarm) → List AlarmStatus → Option (List AlarmStatus)
  | [], alarmStatusList => some alarmStatusList
  | none :: _, _ => none
  | some alarm :: rest, alarmStatusList =>
    match alarm.StateUpdatedTimestamp with
    | none => none
    | some t =>
      compositeAlarmsStatusLoop rest (alarmStatusList ++ [{
        Arn := StringValue alarm.AlarmArn
        Name := StringValue alarm.AlarmName
        Reason := StringValue alarm.StateReason
        Status := StringValue alarm.StateValue
        Type_ := compositeAlarmType
        UpdatedTimes := t.Unix }])

/-- The method `compositeAlarmsStatus`. -/
def compositeAlarmsStatus (alarms : List (Option CompositeAlarm)) : Option (List AlarmStatus) :=
  compositeAlarmsStatusLoop alarms []

/-- The loop of `metricAlarmsStatus`; `none` is the panic of a nil dereference. -/
def metricAlarmsStatusLoop :
    List (Option MetricAlarm) → List AlarmStatus → Option (List AlarmStatus)
  | [], alarmStatusList => some alarmStatusList
  | none :: _, _ => none
  | some alarm :: rest, alarmStatusList =>
    match alarm.StateUpdatedTimestamp with
    | none => none
    | some t =>
      metricAlarmsStatusLoop rest (alarmStatusList ++ [{
        Arn := StringValue alarm.AlarmArn
        Name := StringValue alarm.AlarmName
        Reason := StringValue alarm.StateReason
        Status := StringValue alarm.StateValue
        Type_ := metricAlarmType
        UpdatedTimes := t.Unix }])

/-- The method `metricAlarmsStatus`. -/
def metricAlarmsStatus (alarms : List (Option MetricAlarm)) : Option (List AlarmStatus) :=
  metricAlarmsStatusLoop alarms []

/-! ## `GetAlarmsWithTags` -/

/-- The loop `for _, identifier := range resourceResp.ResourceIdentifiers`: it appends
the name of each identifier to `alarmNames`, returns at the first error of
`getAlarmName`, and panics on a nil identifier or a nil `ResourceArn`. -/
def rangeIdentifiers : List (Option ResourceIdentifier) → List String → Flow (List String)
  | [], alarmNames => .next alarmNames
  | none :: _, _ => .panic
  | some identifier :: rest, alarmNames =>
    match identifier.ResourceArn with
    | none => .panic
    | some resourceArn =>
      match getAlarmName resourceArn with
      | .error err => .fail err
      | .ok name => rangeIdentifiers rest (alarmNames ++ [name])

/-- The first `for` loop of `GetAlarmsWithTags`, entered with the token of the previous
response and the names appended so far. -/
def searchLoop {σ : Type} (cw : CloudWatch σ) (query : String) :
    Nat → σ → Option String → List String → Stage σ (List String)
  | 0, st, _, _ => { result := .outOfFuel, events := [], state := st }
  | fuel + 1, st, nextToken, alarmNames =>
    let input : SearchResourcesInput :=
      { NextToken := nextToken
        ResourceQuery := some { Type_ := some resourceQueryType, Query := some query } }
    let ret := cw.SearchResources st input
    match ret.1 with
    | (_, some err) =>
      { result := .fail ("search CloudWatch alarm resources: " ++ err)
        events := [.search input ret.1], state := ret.2 }
    | (none, none) => { result := .panic, events := [.search input ret.1], state := ret.2 }
    | (some resourceResp, none) =>
      match rangeIdentifiers resourceResp.ResourceIdentifiers alarmNames with
      | .next alarmNames =>
        match resourceResp.NextToken with
        | none => { result := .next alarmNames, events := [.search input ret.1], state := ret.2 }
        | some token =>
          let rest := searchLoop cw query fuel ret.2 (some token) alarmNames
          { rest with events := .search input ret.1 :: rest.events }
      | .fail err => { result := .fail err, events := [.search input ret.1], state := ret.2 }
      | .panic => { result := .panic, events := [.search input ret.1], state := ret.2 }
      | .outOfFuel => { result := .outOfFuel, events := [.search input ret.1], state := ret.2 }

/-- The second `for` loop of `GetAlarmsWithTags`, entered with the token of the previous
response and the statuses appended so far. -/
def describeLoop {σ : Type} (cw : CloudWatch σ) (alarmNames : List String) :
    Nat → σ → Option String → List AlarmStatus → Stage σ (List AlarmStatus)
  | 0, st, _, _ => { result := .outOfFuel, events := [], state := st }
  | fuel + 1, st, nextToken, alarmStatus =>
    let input : DescribeAlarmsInput := { AlarmNames := alarmNames, NextToken := nextToken }
    let ret := cw.DescribeAlarms st input
    match ret.1 with
    | (_, some err) =>
      { result := .fail ("describe CloudWatch alarms: " ++ err)
        events := [.describe input ret.1], state := ret.2 }
    | (none, none) => { result := .panic, events := [.describe input ret.1], state := ret.2 }
    | (some alarmResp, none) =>
      match compositeAlarmsStatus alarmResp.CompositeAlarms with
      | none => { result := .panic, events := [.describe input ret.1], state := ret.2 }
      | some composite =>
        match metricAlarmsStatus alarmResp.MetricAlarms with
        | none => { result := .panic, events := [.describe input ret.1], state := ret.2 }
        | some metric =>
          match alarmResp.NextToken with
          | none =>
            { result := .next (alarmStatus ++ composite ++ metric)
              events := [.describe input ret.1], state := ret.2 }
          | some token =>
            let rest := describeLoop cw alarmNames fuel ret.2 (some token)
              (alarmStatus ++ composite ++ metric)
            { rest with events := .describe input ret.1 :: rest.events }

/-- The method `GetAlarmsWithTags`. `tags` holds the entries of the map in the order
`range` yields them, `marshal` is `json.Marshal`, `fuel` bounds the iterations of each
of the two loops, `st` is the state of the remote services at the call. -/
def GetAlarmsWithTags {σ : Type} (cw : CloudWatch σ) (marshal : query → Except String String)
    (fuel : Nat) (st : σ) (tags : List (String × String)) : Run :=
  match searchResourceQuery marshal tags with
  | .error err =>
    { outcome := .returned [] (some ("construct search resource query: " ++ err)), events := [] }
  | .ok query =>
    let s := searchLoop cw query fuel st none []
    match s.result with
    | .fail err => { outcome := .returned [] (some err), events := s.events }
    | .panic => { outcome := .panicked, events := s.events }
    | .outOfFuel => { outcome := .outOfFuel, events := s.events }
    | .next alarmNames =>
      let d := describeLoop cw alarmNames fuel s.state none []
      match d.result with
      | .fail err => { outcome := .returned [] (some err), events := s.events ++ d.events }
      | .panic => { outcome := .panicked, events := s.events ++ d.events }
      | .outOfFuel => { outcome := .outOfFuel, events := s.events ++ d.events }
      | .next alarmStatus =>
        { outcome := .returned alarmStatus none, events := s.events ++ d.events }

/-! ## Scripted clients -/

/-- The responses two fake clients will give, call after call. -/
structure Script where
  searches : List SearchRet
  describes : List DescribeRet
deriving DecidableEq, Repr

/-- The message of a fake client whose script has no response left. -/
def unexpectedCall : String := "unexpected call"

/-- A pair of fake clients that answer from a script whatever the request is. -/
def scripted : CloudWatch Script where
  SearchResources := fun s _ =>
    match s.searches with
    | [] => ((none, some unexpectedCall), s)
    | r :: rest => (r, { s with searches := rest })
  DescribeAlarms := fun s _ =>
    match s.describes with
    | [] => ((none, some unexpectedCall), s)
    | r :: rest => (r, { s with describes := rest })

/-! ## Vocabulary of the statements

These definitions say what a run is expected to do; the theorems compare them with the
embedding of the code above. -/

/-- The alarm name an identifier yields, when it yields one. -/
def nameOf : Option ResourceIdentifier → Option String
  | some { ResourceArn := some resourceArn } =>
    match getAlarmName resourceArn with
    | .ok name => some name
    | .error _ => none
  | _ => none

/-- The identifier `identifier` yields the alarm name `name`: it is not nil, it carries
an ARN, and `getAlarmName` returns `name` for that ARN. -/
def Yields (identifier : Option ResourceIdentifier) (name : String) : Prop :=
  nameOf identifier = some name

instance (identifier : Option ResourceIdentifier) (name : String) :
    Decidable (Yields identifier name) :=
  inferInstanceAs (Decidable (nameOf identifier = some name))

/-- The alarm names of a list of identifiers, in order. -/
def pageNames (identifiers : List (Option ResourceIdentifier)) : List String :=
  identifiers.filterMap nameOf

/-- A search response the loop handles without error: the call gave no error, the output
is not nil, and every identifier yields a name. -/
def searchOk : SearchRet → Bool
  | (some resourceResp, none) => resourceResp.ResourceIdentifiers.all fun i => (nameOf i).isSome
  | _ => false

/-- The continuation token of a search response. -/
def searchToken : SearchRet → Option String
  | (some resourceResp, _) => resourceResp.NextToken
  | (none, _) => none

/-- The identifiers of a search response. -/
def searchIdentifiers : SearchRet → List (Option ResourceIdentifier)
  | (some resourceResp, _) => resourceResp.ResourceIdentifiers
  | (none, _) => []

/-- The request the code sends to `SearchResources` with a given token. -/
def searchInput (query : String) (nextToken : Option String) : SearchResourcesInput :=
  { NextToken := nextToken
    ResourceQuery := some { Type_ := some resourceQueryType, Query := some query } }

/-- The search calls expected for a list of responses: the first call carries `nextToken`,
each later call the token of the response before it. -/
def searchEvents (query : String) : Option String → List SearchRet → List Event
  | _, [] => []
  | nextToken, r :: rest =>
    .search (searchInput query nextToken) r :: searchEvents query (searchToken r) rest

/-- The token in hand after a list of search responses. -/
def searchTokenAfter : Option String → List SearchRet → Option String
  | nextToken, [] => nextToken
  | _, r :: rest => searchTokenAfter (searchToken r) rest

/-- The status record of a raw alarm of kind `ty`: each string field as given, the empty
string when it is absent, and the Unix seconds of the state-transition time. -/
def statusOf (ty : String) (arn name reason value : Option String) (t : Time) : AlarmStatus :=
  { Arn := arn.getD "", Name := name.getD "", Reason := reason.getD "", Status := value.getD ""
    Type_ := ty, UpdatedTimes := t.Unix }

/-- The status expected for an entry of the composite-alarm list, when the entry is a
record with a state-transition time. -/
def compositeSlot : Option CompositeAlarm → Option AlarmStatus
  | some alarm =>
    alarm.StateUpdatedTimestamp.map
      (statusOf "Composite" alarm.AlarmArn alarm.AlarmName alarm.StateReason alarm.StateValue)
  | none => none

/-- The status expected for an entry of the metric-alarm list, when the entry is a record
with a state-transition time. -/
def metricSlot : Option MetricAlarm → Option AlarmStatus
  | some alarm =>
    alarm.StateUpdatedTimestamp.map
      (statusOf "Metric" alarm.AlarmArn alarm.AlarmName alarm.StateReason alarm.StateValue)
  | none => none

/-- The statuses expected for a describe response, entry by entry: the composite alarms
first, then the metric alarms. -/
def describeSlots : DescribeRet → List (Option AlarmStatus)
  | (some alarmResp, _) =>
    alarmResp.CompositeAlarms.map compositeSlot ++ alarmResp.MetricAlarms.map metricSlot
  | (none, _) => []

/-- The statuses expected for a describe response, as a list. -/
def describeStatuses (r : DescribeRet) : List AlarmStatus :=
  (describeSlots r).filterMap id

/-- A describe response the loop handles without error: the call gave no error, the
output is not nil, and every alarm entry is a record with a state-transition time. -/
def describeOk : DescribeRet → Bool
  | (some alarmResp, none) =>
    (alarmResp.CompositeAlarms.all fun a => (compositeSlot a).isSome) &&
      (alarmResp.MetricAlarms.all fun a => (metricSlot a).isSome)
  | _ => false

/-- The continuation token of a describe response. -/
def describeToken : DescribeRet → Option String
  | (some alarmResp, _) => alarmResp.NextToken
  | (none, _) => none

/-- The describe calls expected for a list of responses: every call carries the same
names, the first call `nextToken`, each later call the token of the response before it. -/
def describeEvents (alarmNames : List String) : Option String → List DescribeRet → List Event
  | _, [] => []
  | nextToken, r :: rest =>
    .describe { AlarmNames := alarmNames, NextToken := nextToken } r ::
      describeEvents alarmNames (describeToken r) rest

/-- The token in hand after a list of describe responses. -/
def describeTokenAfter : Option String → List DescribeRet → Option String
  | nextToken, [] => nextToken
  | _, r :: rest => describeTokenAfter (describeToken r) rest

/-- Whether an event is a call of `SearchResources`. -/
def Event.isSearch : Event → Bool
  | .search _ _ => true
  | .describe _ _ => false

/-- Whether an event is a call of `DescribeAlarms`. -/
def Event.isDescribe : Event → Bool
  | .search _ _ => false
  | .describe _ _ => true

/-- All identifiers the search calls of a trace returned, in call order and in-page order. -/
def searchedIdentifiers : List Event → List (Option ResourceIdentifier)
  | [] => []
  | .search _ r :: rest => searchIdentifiers r ++ searchedIdentifiers rest
  | .describe _ _ :: rest => searchedIdentifiers rest

/-- The statuses expected for the describe calls of a trace, entry by entry, in call order. -/
def describedSlots : List Event → List (Option AlarmStatus)
  | [] => []
  | .search _ _ :: rest => describedSlots rest
  | .describe _ r :: rest => describeSlots r ++ describedSlots rest

/-- The number of alarm entries the describe calls of a trace returned. -/
def describedCount : List Event → Nat
  | [] => 0
  | .search _ _ :: rest => describedCount rest
  | .describe _ (some alarmResp, _) :: rest =>
    alarmResp.CompositeAlarms.length + alarmResp.MetricAlarms.length + describedCount rest
  | .describe _ (none, _) :: rest => describedCount rest

/-- The alarm names of a list of search responses, in response order and in-page order. -/
def scriptNames : List SearchRet → List String
  | [] => []
  | r :: rest => pageNames (searchIdentifiers r) ++ scriptNames rest

/-- The statuses expected for a list of describe responses, in response order. -/
def scriptStatuses : List DescribeRet → List AlarmStatus
  | [] => []
  | r :: rest => describeStatuses r ++ scriptStatuses rest

/-! ## Building blocks of scripts and examples -/

/-- A `json.Marshal` that always succeeds, with a fixed text. -/
def marshalOk : query → Except String String := fun _ => .ok "{}"

/-- An identifier carrying the given ARN. -/
def identifier (resourceArn : String) : Option ResourceIdentifier :=
  some { ResourceArn := some resourceArn }

/-- A search response without error. -/
def searchPage (identifiers : List (Option ResourceIdentifier)) (nextToken : Option String) :
    SearchRet :=
  (some { NextToken := nextToken, ResourceIdentifiers := identifiers }, none)

/-- A describe response without error. -/
def describePage (composite : List (Option CompositeAlarm)) (metric : List (Option MetricAlarm))
    (nextToken : Option String) : DescribeRet :=
  (some { CompositeAlarms := composite, MetricAlarms := metric, NextToken := nextToken }, none)

/-- The ARN of an alarm named `MyAlarm`. -/
def myAlarmArn : String := "arn:aws:cloudwatch:us-west-2:1234567890:alarm:MyAlarm"

/-- The ARN of an alarm named `Other`. -/
def otherAlarmArn : String := "arn:aws:cloudwatch:us-west-2:1234567890:alarm:Other"

/-- A metric alarm with every field present. -/
def myMetricAlarm : MetricAlarm :=
  { AlarmArn := some myAlarmArn, AlarmName := some "MyAlarm"
    StateReason := some "threshold not breached", StateValue := some "OK"
    StateUpdatedTimestamp := some ⟨1600000000⟩, MetricName := some "CPUUtilization" }

/-- A composite alarm with every field present. -/
def myCompositeAlarm : CompositeAlarm :=
  { AlarmArn := some otherAlarmArn, AlarmName := some "Other"
    StateReason := some "children in alarm", StateValue := some "ALARM"
    StateUpdatedTimestamp := some ⟨1600000100⟩, AlarmRule := some "ALARM(MyAlarm)" }

/-! ## Splitting on colons -/

theorem cutColon_of_not_mem (a : List Char) (h : ':' ∉ a) : cutColon a = none := by
  induction a with
  | nil => rfl
  | cons c cs ih =>
    simp only [List.mem_cons, not_or] at h
    have hc : c ≠ ':' := fun e => h.1 e.symm
    simp [cutColon, hc, ih h.2]

theorem cutColon_append (a b : List Char) (h : ':' ∉ a) :
    cutColon (a ++ ':' :: b) = some (a, b) := by
  induction a with
  | nil => simp [cutColon]
  | cons c cs ih =>
    simp only [List.mem_cons, not_or] at h
    have hc : c ≠ ':' := fun e => h.1 e.symm
    simp [cutColon, hc, ih h.2]

theorem cutColon_some {s a b : List Char} (h : cutColon s = some (a, b)) :
    s = a ++ ':' :: b ∧ ':' ∉ a := by
  induction s generalizing a with
  | nil => simp [cutColon] at h
  | cons c cs ih =>
    unfold cutColon at h
    split at h
    · rename_i hc
      simp only [Option.some.injEq, Prod.mk.injEq] at h
      obtain ⟨rfl, rfl⟩ := h
      simp [hc]
    · rename_i hc
      split at h
      · simp at h
      · rename_i a1 b1 h1
        simp only [Option.some.injEq, Prod.mk.injEq] at h
        obtain ⟨rfl, rfl⟩ := h
        obtain ⟨e, hn⟩ := ih h1
        refine ⟨by rw [e]; simp, ?_⟩
        simp only [List.mem_cons, not_or]
        exact ⟨fun e => hc e.symm, hn⟩

theorem cutColon_none {s : List Char} (h : cutColon s = none) : ':' ∉ s := by
  induction s with
  | nil => simp
  | cons c cs ih =>
    unfold cutColon at h
    split at h
    · simp at h
    · rename_i hc
      split at h
      · rename_i h1
        simp only [List.mem_cons, not_or]
        exact ⟨fun e => hc e.symm, ih h1⟩
      · simp at h

theorem countColon_of_not_mem {a : List Char} (h : ':' ∉ a) : countColon a = 0 := by
  simpa [countColon] using List.count_eq_zero_of_not_mem h

theorem countColon_append (a b : List Char) :
    countColon (a ++ b) = countColon a + countColon b := by
  simp [countColon]

theorem countColon_cons_colon (b : List Char) : countColon (':' :: b) = countColon b + 1 := by
  simp [countColon]

/-- The number of pieces `genSplit` gives: one more than the colons, capped at `n`. -/
theorem genSplit_length (n : Nat) (s : List Char) :
    (genSplit n s).length = min n (countColon s + 1) := by
  induction n using Nat.strong_induction_on generalizing s with
  | _ n ih =>
    match n with
    | 0 => simp [genSplit]
    | 1 => simp [genSplit]
    | n + 2 =>
      unfold genSplit
      split
      · rename_i h
        simp [countColon_of_not_mem (cutColon_none h)]
      · rename_i a b h
        obtain ⟨e, hn⟩ := cutColon_some h
        simp only [List.length_cons, ih (n + 1) (by omega) b]
        rw [e, countColon_append, countColon_cons_colon, countColon_of_not_mem hn]
        omega

theorem Split_length (s : String) : (Split s).length = countColon s.data + 1 := by
  simp [Split, genSplit_length]

theorem SplitN_length (s : String) (n : Nat) :
    (SplitN s n).length = min n (countColon s.data + 1) := by
  simp [SplitN, genSplit_length]

theorem genSplit_sections (p s r a res : List Char) (hp : ':' ∉ p) (hs : ':' ∉ s)
    (hr : ':' ∉ r) (ha : ':' ∉ a) :
    genSplit 6 (['a', 'r', 'n'] ++ ':' :: (p ++ ':' :: (s ++ ':' :: (r ++ ':' :: (a ++ ':' :: res)))))
      = [['a', 'r', 'n'], p, s, r, a, res] := by
  have h0 : ':' ∉ ['a', 'r', 'n'] := by decide
  simp only [genSplit, cutColon_append _ _ h0, cutColon_append _ _ hp, cutColon_append _ _ hs,
    cutColon_append _ _ hr, cutColon_append _ _ ha]

theorem genSplit_alarm (name : List Char) (hn : ':' ∉ name) :
    genSplit (countColon (['a', 'l', 'a', 'r', 'm'] ++ ':' :: name) + 1)
      (['a', 'l', 'a', 'r', 'm'] ++ ':' :: name) = [['a', 'l', 'a', 'r', 'm'], name] := by
  have h0 : ':' ∉ ['a', 'l', 'a', 'r', 'm'] := by decide
  rw [countColon_append, countColon_cons_colon, countColon_of_not_mem h0,
    countColon_of_not_mem hn]
  simp only [genSplit, cutColon_append _ _ h0]

theorem getAlarmName_of_Parse_error {alarmArn err : String} (h : Parse alarmArn = .error err) :
    getAlarmName alarmArn = .error ("parse alarm ARN " ++ alarmArn ++ ": " ++ err) := by
  simp [getAlarmName, h]

theorem getAlarmName_of_Split_ne {alarmArn : String} {resp : ARN} (h : Parse alarmArn = .ok resp)
    (hl : (Split resp.Resource).length ≠ 2) :
    getAlarmName alarmArn = .error ("cannot parse alarm ARN resource " ++ resp.Resource) := by
  simp only [getAlarmName, h]
  split
  · rename_i e; rw [e] at hl; simp at hl
  · rfl

theorem Parse_error_of_malformed {arn : String}
    (h : HasPrefix arn arnPrefix = false ∨ (Split arn).length < 6) :
    Parse arn = .error invalidPrefix ∨ Parse arn = .error invalidSections := by
  unfold Parse
  by_cases hp : HasPrefix arn arnPrefix = false
  · left; simp [hp]
  · right
    have h6 : (Split arn).length < 6 := by
      rcases h with h | h
      · exact absurd h hp
      · exact h
    simp only [Bool.not_eq_false] at hp
    simp only [hp, Bool.not_true, Bool.false_eq_true, if_false]
    split
    · rename_i e
      have hl := SplitN_length arn arnSections
      rw [e, Split_length] at *
      simp [arnSections] at hl
      omega
    · rfl

/-! ## The loops over one page -/

theorem nameOf_arn (resourceArn : String) :
    nameOf (some { ResourceArn := some resourceArn }) =
      (match getAlarmName resourceArn with
       | .ok name => some name
       | .error _ => none) := rfl

theorem Yields_iff (identifier : Option ResourceIdentifier) (name : String) :
    Yields identifier name ↔
      ∃ resourceArn, identifier = some { ResourceArn := some resourceArn } ∧
        getAlarmName resourceArn = .ok name := by
  unfold Yields
  match identifier with
  | none => simp [nameOf]
  | some ⟨none⟩ => simp [nameOf]
  | some ⟨some a⟩ =>
    rw [nameOf_arn]
    cases hg : getAlarmName a with
    | error e => simp [hg]
    | ok n => simp [hg]

theorem rangeIdentifiers_ok (ids : List (Option ResourceIdentifier)) (acc : List String)
    (h : (ids.all fun i => (nameOf i).isSome) = true) :
    rangeIdentifiers ids acc = .next (acc ++ pageNames ids) := by
  induction ids generalizing acc with
  | nil => simp [rangeIdentifiers, pageNames]
  | cons i rest ih =>
    simp only [List.all_cons, Bool.and_eq_true] at h
    obtain ⟨hi, hrest⟩ := h
    match i, hi with
    | none, hi => simp [nameOf] at hi
    | some ⟨none⟩, hi => simp [nameOf] at hi
    | some ⟨some a⟩, hi =>
      rw [nameOf_arn] at hi
      cases hg : getAlarmName a with
      | error e => rw [hg] at hi; simp at hi
      | ok n =>
        have hn : nameOf (some { ResourceArn := some a }) = some n := by rw [nameOf_arn, hg]
        simp only [rangeIdentifiers, hg, ih _ hrest, pageNames, List.filterMap_cons, hn]
        simp

theorem rangeIdentifiers_fail (good rest : List (Option ResourceIdentifier)) (bad err : String)
    (acc : List String) (hg : (good.all fun i => (nameOf i).isSome) = true)
    (hb : getAlarmName bad = .error err) :
    rangeIdentifiers (good ++ some { ResourceArn := some bad } :: rest) acc = .fail err := by
  induction good generalizing acc with
  | nil => simp [rangeIdentifiers, hb]
  | cons i good ih =>
    simp only [List.all_cons, Bool.and_eq_true] at hg
    obtain ⟨hi, hgood⟩ := hg
    match i, hi with
    | none, hi => simp [nameOf] at hi
    | some ⟨none⟩, hi => simp [nameOf] at hi
    | some ⟨some a⟩, hi =>
      rw [nameOf_arn] at hi
      cases hga : getAlarmName a with
      | error e => rw [hga] at hi; simp at hi
      | ok n =>
        simp only [List.cons_append, rangeIdentifiers, hga]
        exact ih _ hgood

theorem rangeIdentifiers_next {ids : List (Option ResourceIdentifier)} {acc r : List String}
    (h : rangeIdentifiers ids acc = .next r) :
    ∃ ns, r = acc ++ ns ∧ List.Forall₂ Yields ids ns := by
  induction ids generalizing acc with
  | nil =>
    simp only [rangeIdentifiers, Flow.next.injEq] at h
    exact ⟨[], by simp [h], List.Forall₂.nil⟩
  | cons i rest ih =>
    match i with
    | none => simp [rangeIdentifiers] at h
    | some ⟨none⟩ => simp [rangeIdentifiers] at h
    | some ⟨some a⟩ =>
      cases hg : getAlarmName a with
      | error e => simp [rangeIdentifiers, hg] at h
      | ok n =>
        simp only [rangeIdentifiers, hg] at h
        obtain ⟨ns, hr, hf⟩ := ih h
        exact ⟨n :: ns, by simp [hr],
          List.Forall₂.cons (show nameOf _ = some n by rw [nameOf_arn, hg]) hf⟩

theorem StringValue_eq_getD (p : Option String) : StringValue p = p.getD "" := by
  cases p <;> rfl

theorem compositeAlarmsStatusLoop_ok (alarms : List (Option CompositeAlarm))
    (acc : List AlarmStatus) (h : (alarms.all fun a => (compositeSlot a).isSome) = true) :
    compositeAlarmsStatusLoop alarms acc = some (acc ++ alarms.filterMap compositeSlot) := by
  induction alarms generalizing acc with
  | nil => simp [compositeAlarmsStatusLoop]
  | cons a rest ih =>
    simp only [List.all_cons, Bool.and_eq_true] at h
    obtain ⟨ha, hrest⟩ := h
    match a, ha with
    | none, ha => simp [compositeSlot] at ha
    | some alarm, ha =>
      cases ht : alarm.StateUpdatedTimestamp with
      | none => simp [compositeSlot, ht] at ha
      | some t =>
        simp only [compositeAlarmsStatusLoop, ht, ih _ hrest, List.filterMap_cons, compositeSlot,
          Option.map_some']
        simp [statusOf, StringValue_eq_getD, compositeAlarmType]

theorem metricAlarmsStatusLoop_ok (alarms : List (Option MetricAlarm))
    (acc : List AlarmStatus) (h : (alarms.all fun a => (metricSlot a).isSome) = true) :
    metricAlarmsStatusLoop alarms acc = some (acc ++ alarms.filterMap metricSlot) := by
  induction alarms generalizing acc with
  | nil => simp [metricAlarmsStatusLoop]
  | cons a rest ih =>
    simp only [List.all_cons, Bool.and_eq_true] at h
    obtain ⟨ha, hrest⟩ := h
    match a, ha with
    | none, ha => simp [metricSlot] at ha
    | some alarm, ha =>
      cases ht : alarm.StateUpdatedTimestamp with
      | none => simp [metricSlot, ht] at ha
      | some t =>
        simp only [metricAlarmsStatusLoop, ht, ih _ hrest, List.filterMap_cons, metricSlot,
          Option.map_some']
        simp [statusOf, StringValue_eq_getD, metricAlarmType]

theorem compositeAlarmsStatusLoop_some {alarms : List (Option CompositeAlarm)}
    {acc r : List AlarmStatus} (h : compositeAlarmsStatusLoop alarms acc = some r) :
    ∃ l, r = acc ++ l ∧ alarms.map compositeSlot = l.map some := by
  induction alarms generalizing acc with
  | nil =>
    simp only [compositeAlarmsStatusLoop, Option.some.injEq] at h
    exact ⟨[], by simp [h], rfl⟩
  | cons a rest ih =>
    match a with
    | none => simp [compositeAlarmsStatusLoop] at h
    | some alarm =>
      cases ht : alarm.StateUpdatedTimestamp with
      | none => simp [compositeAlarmsStatusLoop, ht] at h
      | some t =>
        simp only [compositeAlarmsStatusLoop, ht] at h
        obtain ⟨l, hr, hl⟩ := ih h
        refine ⟨statusOf "Composite" alarm.AlarmArn alarm.AlarmName alarm.StateReason
          alarm.StateValue t :: l, ?_, ?_⟩
        · rw [hr]; simp [statusOf, StringValue_eq_getD, compositeAlarmType]
        · simp [compositeSlot, ht, hl]

theorem metricAlarmsStatusLoop_some {alarms : List (Option MetricAlarm)}
    {acc r : List AlarmStatus} (h : metricAlarmsStatusLoop alarms acc = some r) :
    ∃ l, r = acc ++ l ∧ alarms.map metricSlot = l.map some := by
  induction alarms generalizing acc with
  | nil =>
    simp only [metricAlarmsStatusLoop, Option.some.injEq] at h
    exact ⟨[], by simp [h], rfl⟩
  | cons a rest ih =>
    match a with
    | none => simp [metricAlarmsStatusLoop] at h
    | some alarm =>
      cases ht : alarm.StateUpdatedTimestamp with
      | none => simp [metricAlarmsStatusLoop, ht] at h
      | some t =>
        simp only [metricAlarmsStatusLoop, ht] at h
        obtain ⟨l, hr, hl⟩ := ih h
        refine ⟨statusOf "Metric" alarm.AlarmArn alarm.AlarmName alarm.StateReason
          alarm.StateValue t :: l, ?_, ?_⟩
        · rw [hr]; simp [statusOf, StringValue_eq_getD, metricAlarmType]
        · simp [metricSlot, ht, hl]

/-! ## The two loops against scripted clients -/

theorem scripted_search (p : SearchRet) (rest : List SearchRet) (ds : List DescribeRet)
    (input : SearchResourcesInput) :
    scripted.SearchResources ⟨p :: rest, ds⟩ input = (p, ⟨rest, ds⟩) := rfl

theorem scripted_describe (ss : List SearchRet) (d : DescribeRet) (rest : List DescribeRet)
    (input : DescribeAlarmsInput) :
    scripted.DescribeAlarms ⟨ss, d :: rest⟩ input = (d, ⟨ss, rest⟩) := rfl

theorem searchLoop_scripted_err (query : String) (out : Option SearchResourcesOutput)
    (err : String) (rest : List SearchRet) (ds : List DescribeRet) (fuel : Nat)
    (tok : Option String) (names : List String) :
    searchLoop scripted query (fuel + 1) ⟨(out, some err) :: rest, ds⟩ tok names =
      { result := .fail ("search CloudWatch alarm resources: " ++ err)
        events := [.search (searchInput query tok) (out, some err)]
        state := ⟨rest, ds⟩ } := by
  simp [searchLoop, scripted_search, searchInput]

theorem searchLoop_scripted_last (query : String) (p : SearchRet) (rest : List SearchRet)
    (ds : List DescribeRet) (fuel : Nat) (tok : Option String) (names : List String)
    (hok : searchOk p = true) (ht : searchToken p = none) :
    searchLoop scripted query (fuel + 1) ⟨p :: rest, ds⟩ tok names =
      { result := .next (names ++ pageNames (searchIdentifiers p))
        events := [.search (searchInput query tok) p]
        state := ⟨rest, ds⟩ } := by
  match p, hok, ht with
  | (some resp, none), hok, ht =>
    simp only [searchOk] at hok
    simp only [searchToken] at ht
    simp [searchLoop, scripted_search, searchInput, rangeIdentifiers_ok _ _ hok, ht, searchIdentifiers]

theorem searchLoop_scripted_bad (query : String) (tok' : Option String)
    (good more : List (Option ResourceIdentifier)) (bad err : String)
    (rest : List SearchRet) (ds : List DescribeRet) (fuel : Nat)
    (tok : Option String) (names : List String)
    (hg : (good.all fun i => (nameOf i).isSome) = true) (hb : getAlarmName bad = .error err) :
    searchLoop scripted query (fuel + 1)
        ⟨(some { NextToken := tok'
                 ResourceIdentifiers := good ++ some { ResourceArn := some bad } :: more },
          none) :: rest, ds⟩ tok names =
      { result := .fail err
        events := [.search (searchInput query tok)
          (some { NextToken := tok'
                  ResourceIdentifiers := good ++ some { ResourceArn := some bad } :: more },
           none)]
        state := ⟨rest, ds⟩ } := by
  simp [searchLoop, scripted_search, searchInput, rangeIdentifiers_fail good more bad err names hg hb]

theorem searchLoop_scripted_pre (query : String) (pre rest : List SearchRet)
    (ds : List DescribeRet) (fuel : Nat) (tok : Option String) (names : List String)
    (h : ∀ p ∈ pre, searchOk p = true ∧ (searchToken p).isSome = true) :
    searchLoop scripted query (pre.length + fuel) ⟨pre ++ rest, ds⟩ tok names =
      { result := (searchLoop scripted query fuel ⟨rest, ds⟩ (searchTokenAfter tok pre)
          (names ++ scriptNames pre)).result
        events := searchEvents query tok pre ++
          (searchLoop scripted query fuel ⟨rest, ds⟩ (searchTokenAfter tok pre)
            (names ++ scriptNames pre)).events
        state := (searchLoop scripted query fuel ⟨rest, ds⟩ (searchTokenAfter tok pre)
          (names ++ scriptNames pre)).state } := by
  induction pre generalizing tok names with
  | nil => simp [searchTokenAfter, scriptNames, searchEvents]
  | cons p pre ih =>
    have hp := h p (List.mem_cons_self _ _)
    have hpre : ∀ q ∈ pre, searchOk q = true ∧ (searchToken q).isSome = true :=
      fun q hq => h q (List.mem_cons_of_mem _ hq)
    match p, hp with
    | (some resp, none), ⟨hok, ht⟩ =>
      simp only [searchOk] at hok
      simp only [searchToken] at ht
      obtain ⟨t, ht⟩ := Option.isSome_iff_exists.mp ht
      rw [show ((some resp, none) :: pre).length + fuel = (pre.length + fuel) + 1 by
        simp only [List.length_cons]; omega]
      simp only [List.cons_append, searchLoop, scripted_search, rangeIdentifiers_ok _ _ hok, ht,
        ih _ _ hpre, searchTokenAfter, searchToken, scriptNames, searchIdentifiers, searchEvents,
        searchInput, List.append_assoc]

theorem describeStatuses_some (alarmResp : DescribeAlarmsOutput) (err : Option String) :
    describeStatuses (some alarmResp, err) =
      alarmResp.CompositeAlarms.filterMap compositeSlot ++
        alarmResp.MetricAlarms.filterMap metricSlot := by
  simp [describeStatuses, describeSlots, List.filterMap_append, List.filterMap_map]

theorem describeLoop_scripted_err (alarmNames : List String) (out : Option DescribeAlarmsOutput)
    (err : String) (ss : List SearchRet) (rest : List DescribeRet) (fuel : Nat)
    (tok : Option String) (acc : List AlarmStatus) :
    describeLoop scripted alarmNames (fuel + 1) ⟨ss, (out, some err) :: rest⟩ tok acc =
      { result := .fail ("describe CloudWatch alarms: " ++ err)
        events := [.describe { AlarmNames := alarmNames, NextToken := tok } (out, some err)]
        state := ⟨ss, rest⟩ } := by
  simp [describeLoop, scripted_describe]

theorem describeLoop_scripted_last (alarmNames : List String) (d : DescribeRet)
    (ss : List SearchRet) (rest : List DescribeRet) (fuel : Nat) (tok : Option String)
    (acc : List AlarmStatus) (hok : describeOk d = true) (ht : describeToken d = none) :
    describeLoop scripted alarmNames (fuel + 1) ⟨ss, d :: rest⟩ tok acc =
      { result := .next (acc ++ describeStatuses d)
        events := [.describe { AlarmNames := alarmNames, NextToken := tok } d]
        state := ⟨ss, rest⟩ } := by
  match d, hok, ht with
  | (some resp, none), hok, ht =>
    simp only [describeOk, Bool.and_eq_true] at hok
    simp only [describeToken] at ht
    simp [describeLoop, scripted_describe, compositeAlarmsStatus, metricAlarmsStatus,
      compositeAlarmsStatusLoop_ok _ _ hok.1, metricAlarmsStatusLoop_ok _ _ hok.2, ht,
      describeStatuses_some]

theorem describeLoop_scripted_pre (alarmNames : List String) (ss : List SearchRet)
    (pre rest : List DescribeRet) (fuel : Nat) (tok : Option String) (acc : List AlarmStatus)
    (h : ∀ d ∈ pre, describeOk d = true ∧ (describeToken d).isSome = true) :
    describeLoop scripted alarmNames (pre.length + fuel) ⟨ss, pre ++ rest⟩ tok acc =
      { result := (describeLoop scripted alarmNames fuel ⟨ss, rest⟩ (describeTokenAfter tok pre)
          (acc ++ scriptStatuses pre)).result
        events := describeEvents alarmNames tok pre ++
          (describeLoop scripted alarmNames fuel ⟨ss, rest⟩ (describeTokenAfter tok pre)
            (acc ++ scriptStatuses pre)).events
        state := (describeLoop scripted alarmNames fuel ⟨ss, rest⟩ (describeTokenAfter tok pre)
          (acc ++ scriptStatuses pre)).state } := by
  induction pre generalizing tok acc with
  | nil => simp [describeTokenAfter, scriptStatuses, describeEvents]
  | cons d pre ih =>
    have hd := h d (List.mem_cons_self _ _)
    have hpre : ∀ q ∈ pre, describeOk q = true ∧ (describeToken q).isSome = true :=
      fun q hq => h q (List.mem_cons_of_mem _ hq)
    match d, hd with
    | (some resp, none), ⟨hok, ht⟩ =>
      simp only [describeOk, Bool.and_eq_true] at hok
      simp only [describeToken] at ht
      obtain ⟨t, ht⟩ := Option.isSome_iff_exists.mp ht
      rw [show ((some resp, none) :: pre).length + fuel = (pre.length + fuel) + 1 by
        simp only [List.length_cons]; omega]
      simp only [List.cons_append, describeLoop, scripted_describe, compositeAlarmsStatus,
        metricAlarmsStatus, compositeAlarmsStatusLoop_ok _ _ hok.1,
        metricAlarmsStatusLoop_ok _ _ hok.2, ht, ih _ _ hpre, describeTokenAfter, describeToken,
        scriptStatuses, describeStatuses_some, describeEvents, List.append_assoc, List.nil_append]

theorem describeLoop_scripted_head (alarmNames : List String) (d : DescribeRet)
    (ss : List SearchRet) (rest : List DescribeRet) (fuel : Nat) (tok : Option String)
    (acc : List AlarmStatus) :
    ∃ more, (describeLoop scripted alarmNames (fuel + 1) ⟨ss, d :: rest⟩ tok acc).events =
      .describe { AlarmNames := alarmNames, NextToken := tok } d :: more := by
  simp only [describeLoop, scripted_describe]
  split
  · exact ⟨[], rfl⟩
  · exact ⟨[], rfl⟩
  · split
    · exact ⟨[], rfl⟩
    · split
      · exact ⟨[], rfl⟩
      · split
        · exact ⟨[], rfl⟩
        · exact ⟨_, rfl⟩

/-! ## The two loops against any client -/

theorem searchedIdentifiers_append (a b : List Event) :
    searchedIdentifiers (a ++ b) = searchedIdentifiers a ++ searchedIdentifiers b := by
  induction a with
  | nil => rfl
  | cons e a ih => cases e <;> simp [searchedIdentifiers, ih]

theorem describedSlots_append (a b : List Event) :
    describedSlots (a ++ b) = describedSlots a ++ describedSlots b := by
  induction a with
  | nil => rfl
  | cons e a ih => cases e <;> simp [describedSlots, ih]

theorem describedCount_append (a b : List Event) :
    describedCount (a ++ b) = describedCount a + describedCount b := by
  induction a with
  | nil => simp [describedCount]
  | cons e a ih =>
    match e with
    | .search _ _ => simp [describedCount, ih]
    | .describe _ (some _, _) => simp [describedCount, ih]; omega
    | .describe _ (none, _) => simp [describedCount, ih]

theorem describedSlots_of_search (l : List Event) (h : ∀ e ∈ l, e.isSearch = true) :
    describedSlots l = [] := by
  induction l with
  | nil => rfl
  | cons e l ih =>
    cases e with
    | search i r => exact ih fun e he => h e (List.mem_cons_of_mem _ he)
    | describe i r => simpa [Event.isSearch] using h _ (List.mem_cons_self _ _)

theorem describedCount_of_search (l : List Event) (h : ∀ e ∈ l, e.isSearch = true) :
    describedCount l = 0 := by
  induction l with
  | nil => rfl
  | cons e l ih =>
    cases e with
    | search i r => exact ih fun e he => h e (List.mem_cons_of_mem _ he)
    | describe i r => simpa [Event.isSearch] using h _ (List.mem_cons_self _ _)

theorem searchLoop_events_search {σ : Type} (cw : CloudWatch σ) (query : String) (fuel : Nat) :
    ∀ (st : σ) (tok : Option String) (names : List String),
      ∀ e ∈ (searchLoop cw query fuel st tok names).events, e.isSearch = true := by
  induction fuel with
  | zero => intro st tok names e he; simp [searchLoop] at he
  | succ fuel ih =>
    intro st tok names e he
    simp only [searchLoop] at he
    split at he
    · simp only [List.mem_singleton] at he; rw [he]; rfl
    · simp only [List.mem_singleton] at he; rw [he]; rfl
    · split at he
      · split at he
        · simp only [List.mem_singleton] at he; rw [he]; rfl
        · simp only [List.mem_cons] at he
          rcases he with he | he
          · rw [he]; rfl
          · exact ih _ _ _ e he
      · simp only [List.mem_singleton] at he; rw [he]; rfl
      · simp only [List.mem_singleton] at he; rw [he]; rfl
      · simp only [List.mem_singleton] at he; rw [he]; rfl

theorem searchLoop_next {σ : Type} (cw : CloudWatch σ) (query : String) (fuel : Nat) :
    ∀ (st : σ) (tok : Option String) (names r : List String),
      (searchLoop cw query fuel st tok names).result = .next r →
      ∃ ns, r = names ++ ns ∧
        List.Forall₂ Yields (searchedIdentifiers (searchLoop cw query fuel st tok names).events) ns := by
  induction fuel with
  | zero => intro st tok names r h; simp [searchLoop] at h
  | succ fuel ih =>
    intro st tok names r h
    simp only [searchLoop] at h ⊢
    split at h
    · simp at h
    · simp at h
    · rename_i resp hret
      split at h
      · rename_i names1 hr
        obtain ⟨ns, hns, hf⟩ := rangeIdentifiers_next hr
        split at h
        · simp only [Flow.next.injEq] at h
          refine ⟨ns, by rw [← h, hns], ?_⟩
          rw [hret]
          simpa [searchedIdentifiers, searchIdentifiers] using hf
        · obtain ⟨ms, hms, hg⟩ := ih _ _ _ _ h
          refine ⟨ns ++ ms, by rw [hms, hns, List.append_assoc], ?_⟩
          rw [hret]
          simp only [searchedIdentifiers, searchIdentifiers]
          exact List.rel_append hf hg
      · simp at h
      · simp at h
      · simp at h

theorem describeLoop_events {σ : Type} (cw : CloudWatch σ) (alarmNames : List String)
    (fuel : Nat) :
    ∀ (st : σ) (tok : Option String) (acc : List AlarmStatus),
      ∀ e ∈ (describeLoop cw alarmNames fuel st tok acc).events,
        ∃ nextToken ret, e = .describe { AlarmNames := alarmNames, NextToken := nextToken } ret := by
  induction fuel with
  | zero => intro st tok acc e he; simp [describeLoop] at he
  | succ fuel ih =>
    intro st tok acc e he
    simp only [describeLoop] at he
    split at he
    · simp only [List.mem_singleton] at he; exact ⟨_, _, he⟩
    · simp only [List.mem_singleton] at he; exact ⟨_, _, he⟩
    · split at he
      · simp only [List.mem_singleton] at he; exact ⟨_, _, he⟩
      · split at he
        · simp only [List.mem_singleton] at he; exact ⟨_, _, he⟩
        · split at he
          · simp only [List.mem_singleton] at he; exact ⟨_, _, he⟩
          · simp only [List.mem_cons] at he
            rcases he with he | he
            · exact ⟨_, _, he⟩
            · exact ih _ _ _ e he

theorem describeLoop_next {σ : Type} (cw : CloudWatch σ) (alarmNames : List String)
    (fuel : Nat) :
    ∀ (st : σ) (tok : Option String) (acc r : List AlarmStatus),
      (describeLoop cw alarmNames fuel st tok acc).result = .next r →
      r.map some =
          acc.map some ++ describedSlots (describeLoop cw alarmNames fuel st tok acc).events ∧
        r.length = acc.length + describedCount (describeLoop cw alarmNames fuel st tok acc).events := by
  induction fuel with
  | zero => intro st tok acc r h; simp [describeLoop] at h
  | succ fuel ih =>
    intro st tok acc r h
    simp only [describeLoop] at h ⊢
    split at h
    · simp at h
    · simp at h
    · rename_i resp hret
      split at h
      · simp at h
      · rename_i composite hc
        split at h
        · simp at h
        · rename_i metric hm
          obtain ⟨lc, hlc, hsc⟩ := compositeAlarmsStatusLoop_some hc
          obtain ⟨lm, hlm, hsm⟩ := metricAlarmsStatusLoop_some hm
          simp only [List.nil_append] at hlc hlm
          have hcl : resp.CompositeAlarms.length = composite.length := by
            have := congrArg List.length hsc
            simpa [hlc] using this
          have hml : resp.MetricAlarms.length = metric.length := by
            have := congrArg List.length hsm
            simpa [hlm] using this
          split at h
          · simp only [Flow.next.injEq] at h
            rw [hret]
            simp only [describedSlots, describeSlots, describedCount, hsc, hsm, ← h, ← hlc, ← hlm,
              List.map_append, List.append_nil, List.append_assoc, List.length_append, hcl, hml]
            exact ⟨trivial, by omega⟩
          · obtain ⟨h1, h2⟩ := ih _ _ _ _ h
            rw [hret]
            simp only [describedSlots, describeSlots, describedCount, hsc, hsm, h1, h2, ← hlc,
              ← hlm, List.map_append, List.append_assoc, List.length_append, hcl, hml]
            exact ⟨trivial, by omega⟩

/-! ## Alarm names -/

theorem arn_data (partition service region account resource : String) :
    ("arn:" ++ partition ++ ":" ++ service ++ ":" ++ region ++ ":" ++ account ++ ":"
        ++ resource).data =
      ['a', 'r', 'n'] ++ ':' :: (partition.data ++ ':' :: (service.data ++ ':' ::
        (region.data ++ ':' :: (account.data ++ ':' :: resource.data)))) := by
  have h1 : "arn:".data = ['a', 'r', 'n', ':'] := rfl
  have h2 : ":".data = [':'] := rfl
  simp only [String.data_append, h1, h2, List.append_assoc, List.cons_append, List.nil_append]

theorem Parse_sections (partition service region account resource : String)
    (hp : ':' ∉ partition.data) (hs : ':' ∉ service.data) (hr : ':' ∉ region.data)
    (ha : ':' ∉ account.data) :
    Parse ("arn:" ++ partition ++ ":" ++ service ++ ":" ++ region ++ ":" ++ account ++ ":"
        ++ resource) =
      .ok { Partition := partition, Service := service, Region := region, AccountID := account,
            Resource := resource } := by
  have hd := arn_data partition service region account resource
  have hpre : HasPrefix ("arn:" ++ partition ++ ":" ++ service ++ ":" ++ region ++ ":"
      ++ account ++ ":" ++ resource) arnPrefix = true := by
    have h1 : arnPrefix.data = ['a', 'r', 'n', ':'] := rfl
    simp [HasPrefix, hd, h1]
  simp only [Parse, hpre, SplitN, arnSections, hd, genSplit_sections _ _ _ _ _ hp hs hr ha]
  rfl

theorem getAlarmName_alarm_resource (partition service region account name : String)
    (hp : ':' ∉ partition.data) (hs : ':' ∉ service.data) (hr : ':' ∉ region.data)
    (ha : ':' ∉ account.data) (hn : ':' ∉ name.data) :
    getAlarmName ("arn:" ++ partition ++ ":" ++ service ++ ":" ++ region ++ ":" ++ account
      ++ ":" ++ ("alarm:" ++ name)) = .ok name := by
  have h1 : ("alarm:" ++ name).data = ['a', 'l', 'a', 'r', 'm'] ++ ':' :: name.data := by
    have h2 : "alarm:".data = ['a', 'l', 'a', 'r', 'm', ':'] := rfl
    simp [String.data_append, h2]
  simp only [getAlarmName, Parse_sections _ _ _ _ _ hp hs hr ha, Split, h1,
    genSplit_alarm _ hn]
  rfl

/-- C1: for every ARN `arn:<partition>:<service>:<region>:<account>:alarm:<name>` in which
none of partition, service, region, account and name contains a colon, `getAlarmName`
returns `<name>` and no error. -/
theorem getAlarmName_alarm_arn (partition service region account name : String)
    (hp : ':' ∉ partition.data) (hs : ':' ∉ service.data) (hr : ':' ∉ region.data)
    (ha : ':' ∉ account.data) (hn : ':' ∉ name.data) :
    getAlarmName ("arn:" ++ partition ++ ":" ++ service ++ ":" ++ region ++ ":" ++ account
      ++ ":alarm:" ++ name) = .ok name := by
  have e : "arn:" ++ partition ++ ":" ++ service ++ ":" ++ region ++ ":" ++ account
      ++ ":alarm:" ++ name =
      "arn:" ++ partition ++ ":" ++ service ++ ":" ++ region ++ ":" ++ account
      ++ ":" ++ ("alarm:" ++ name) := by
    have h3 : ":alarm:" = ":" ++ "alarm:" := by decide
    rw [h3]
    simp only [String.append_assoc]
  rw [e]
  exact getAlarmName_alarm_resource partition service region account name hp hs hr ha hn

/-- The example of the comment on `getAlarmName`, an instance of C1. -/
theorem getAlarmName_alarm_arn_witness :
    getAlarmName "arn:aws:cloudwatch:us-west-2:1234567890:alarm:SDc-ReadCapacityUnitsLimit-BasicAlarm"
      = .ok "SDc-ReadCapacityUnitsLimit-BasicAlarm" :=
  getAlarmName_alarm_arn "aws" "cloudwatch" "us-west-2" "1234567890"
    "SDc-ReadCapacityUnitsLimit-BasicAlarm" (by decide) (by decide) (by decide) (by decide)
    (by decide)

theorem searchEvents_append (query : String) (tok : Option String) (a b : List SearchRet) :
    searchEvents query tok (a ++ b) =
      searchEvents query tok a ++ searchEvents query (searchTokenAfter tok a) b := by
  induction a generalizing tok with
  | nil => rfl
  | cons r a ih => simp [searchEvents, searchTokenAfter, ih]

theorem describeEvents_append (names : List String) (tok : Option String)
    (a b : List DescribeRet) :
    describeEvents names tok (a ++ b) =
      describeEvents names tok a ++ describeEvents names (describeTokenAfter tok a) b := by
  induction a generalizing tok with
  | nil => rfl
  | cons r a ih => simp [describeEvents, describeTokenAfter, ih]

theorem searchEvents_isSearch (query : String) (tok : Option String) (a : List SearchRet) :
    ∀ e ∈ searchEvents query tok a, e.isDescribe = false := by
  induction a generalizing tok with
  | nil => simp [searchEvents]
  | cons r a ih =>
    intro e he
    simp only [searchEvents, List.mem_cons] at he
    rcases he with he | he
    · rw [he]; rfl
    · exact ih _ e he

/-- A run against scripted clients in which the first identifier that yields no name has
an ARN `getAlarmName` rejects: the run returns that error and a nil list after the search
calls made so far. -/
theorem GetAlarmsWithTags_scripted_bad (marshal : query → Except String String)
    (tags : List (String × String)) (query : String) (pre : List SearchRet)
    (tok : Option String) (good more : List (Option ResourceIdentifier)) (bad err : String)
    (later : List SearchRet) (ds : List DescribeRet) (fuel : Nat)
    (hq : searchResourceQuery marshal tags = .ok query)
    (hpre : ∀ p ∈ pre, searchOk p = true ∧ (searchToken p).isSome = true)
    (hg : (good.all fun i => (nameOf i).isSome) = true)
    (hb : getAlarmName bad = .error err) (hfuel : pre.length < fuel) :
    GetAlarmsWithTags scripted marshal fuel
        ⟨pre ++ searchPage (good ++ identifier bad :: more) tok :: later, ds⟩ tags =
      { outcome := .returned [] (some err)
        events := searchEvents query none (pre ++ [searchPage (good ++ identifier bad :: more) tok]) } := by
  obtain ⟨k, rfl⟩ : ∃ k, fuel = pre.length + (k + 1) := ⟨fuel - pre.length - 1, by omega⟩
  simp only [GetAlarmsWithTags, hq, searchLoop_scripted_pre _ _ _ _ _ _ _ hpre, searchPage,
    identifier, searchLoop_scripted_bad _ _ _ _ _ _ _ _ _ _ _ hg hb, searchEvents_append,
    searchEvents]

theorem genSplit_cons_cons {n : Nat} {s a b : List Char} {rest : List (List Char)}
    (h : genSplit (n + 2) s = a :: b :: rest) :
    ∃ t, cutColon s = some (a, t) ∧ genSplit (n + 1) t = b :: rest := by
  unfold genSplit at h
  split at h
  · simp at h
  · rename_i a1 b1 hc
    simp only [List.cons.injEq] at h
    obtain ⟨rfl, h2⟩ := h
    exact ⟨b1, hc, h2⟩

theorem genSplit_sections_inv {s x p sv r a res : List Char}
    (h : genSplit 6 s = [x, p, sv, r, a, res]) :
    s = x ++ ':' :: (p ++ ':' :: (sv ++ ':' :: (r ++ ':' :: (a ++ ':' :: res)))) ∧
      ':' ∉ x ∧ ':' ∉ p ∧ ':' ∉ sv ∧ ':' ∉ r ∧ ':' ∉ a := by
  obtain ⟨t1, c1, h1⟩ := genSplit_cons_cons h
  obtain ⟨t2, c2, h2⟩ := genSplit_cons_cons h1
  obtain ⟨t3, c3, h3⟩ := genSplit_cons_cons h2
  obtain ⟨t4, c4, h4⟩ := genSplit_cons_cons h3
  obtain ⟨t5, c5, h5⟩ := genSplit_cons_cons h4
  simp only [genSplit, List.cons.injEq, and_true] at h5
  obtain ⟨e1, n1⟩ := cutColon_some c1
  obtain ⟨e2, n2⟩ := cutColon_some c2
  obtain ⟨e3, n3⟩ := cutColon_some c3
  obtain ⟨e4, n4⟩ := cutColon_some c4
  obtain ⟨e5, n5⟩ := cutColon_some c5
  refine ⟨?_, n1, n2, n3, n4, n5⟩
  rw [e1, e2, e3, e4, e5, h5]

/-- An ARN that `Parse` accepts is `arn:`, four sections without a colon, and the
resource: the resource is everything after the fifth colon. -/
theorem Parse_ok_form {arn : String} {resp : ARN} (h : Parse arn = .ok resp) :
    arn = "arn:" ++ resp.Partition ++ ":" ++ resp.Service ++ ":" ++ resp.Region ++ ":"
        ++ resp.AccountID ++ ":" ++ resp.Resource ∧
      ':' ∉ resp.Partition.data ∧ ':' ∉ resp.Service.data ∧ ':' ∉ resp.Region.data ∧
      ':' ∉ resp.AccountID.data := by
  unfold Parse at h
  split at h
  · simp at h
  · rename_i hpre
    simp only [Bool.not_eq_true, Bool.not_eq_false_eq_eq_true, Bool.not_not] at hpre
    split at h
    · rename_i x p sv r a res hsplit
      simp only [Except.ok.injEq] at h
      subst h
      have hg : genSplit 6 arn.data = [x.data, p.data, sv.data, r.data, a.data, res.data] := by
        have := congrArg (List.map String.data) hsplit
        simpa [SplitN, arnSections, List.map_map, Function.comp_def] using this
      obtain ⟨e, nx, np, ns, nr, na⟩ := genSplit_sections_inv hg
      have hx : x.data = ['a', 'r', 'n'] := by
        have h1 : arnPrefix.data = ['a', 'r', 'n', ':'] := rfl
        simp only [HasPrefix, h1, List.isPrefixOf_iff_prefix] at hpre
        obtain ⟨t, ht⟩ := hpre
        have c1 := cutColon_append x.data
          (p.data ++ ':' :: (sv.data ++ ':' :: (r.data ++ ':' :: (a.data ++ ':' :: res.data)))) nx
        rw [← e] at c1
        have c2 : cutColon arn.data = some (['a', 'r', 'n'], t) := by
          rw [← ht]; simp [cutColon]
        rw [c1] at c2
        simp only [Option.some.injEq, Prod.mk.injEq] at c2
        exact c2.1
      refine ⟨?_, np, ns, nr, na⟩
      apply String.ext
      rw [arn_data, e, hx]
    · simp at h

theorem Parse_error_eq {arn : String}
    (h : HasPrefix arn arnPrefix = false ∨ (Split arn).length < 6) :
    Parse arn = .error (if HasPrefix arn arnPrefix then invalidSections else invalidPrefix) := by
  by_cases hp : HasPrefix arn arnPrefix = true
  · have h6 : (Split arn).length < 6 := by
      rcases h with h | h
      · rw [hp] at h; exact absurd h (by decide)
      · exact h
    rcases Parse_error_of_malformed (Or.inr h6) with e | e
    · simp [Parse, hp] at e
      split at e <;> simp [invalidPrefix, invalidSections] at e
    · simp [hp, e]
  · simp only [Bool.not_eq_true] at hp
    simp [Parse, hp]

/-- C2: when an ARN parses but its resource does not split on `:` into exactly two
segments, `getAlarmName` returns the error `cannot parse alarm ARN resource <resource>` and
no name; and when the first identifier of a search that yields no name is such an ARN,
`GetAlarmsWithTags` returns that error with a nil list, whatever names the identifiers and
pages before it gave, after the search calls made so far. An ARN that parses is `arn:`,
four sections without a colon, and its resource, which is all that follows the fifth
colon. -/
theorem getAlarmName_resource_segments :
    (∀ (alarmArn : String) (resp : ARN), Parse alarmArn = .ok resp →
      (Split resp.Resource).length ≠ 2 →
      getAlarmName alarmArn = .error ("cannot parse alarm ARN resource " ++ resp.Resource) ∧
      alarmArn = "arn:" ++ resp.Partition ++ ":" ++ resp.Service ++ ":" ++ resp.Region ++ ":"
        ++ resp.AccountID ++ ":" ++ resp.Resource ∧
      ':' ∉ resp.Partition.data ∧ ':' ∉ resp.Service.data ∧ ':' ∉ resp.Region.data ∧
      ':' ∉ resp.AccountID.data) ∧
    (∀ (marshal : query → Except String String) (tags : List (String × String))
      (query : String) (pre : List SearchRet) (tok : Option String)
      (good more : List (Option ResourceIdentifier)) (bad : String) (resp : ARN)
      (later : List SearchRet) (ds : List DescribeRet) (fuel : Nat),
      searchResourceQuery marshal tags = .ok query →
      (∀ p ∈ pre, searchOk p = true ∧ (searchToken p).isSome = true) →
      (good.all fun i => (nameOf i).isSome) = true →
      Parse bad = .ok resp → (Split resp.Resource).length ≠ 2 → pre.length < fuel →
      GetAlarmsWithTags scripted marshal fuel
          ⟨pre ++ searchPage (good ++ identifier bad :: more) tok :: later, ds⟩ tags =
        { outcome := .returned [] (some ("cannot parse alarm ARN resource " ++ resp.Resource))
          events := searchEvents query none
            (pre ++ [searchPage (good ++ identifier bad :: more) tok]) }) := by
  refine ⟨fun alarmArn resp h hl => ⟨getAlarmName_of_Split_ne h hl, Parse_ok_form h⟩, ?_⟩
  intro marshal tags query pre tok good more bad resp later ds fuel hq hpre hg hp hl hfuel
  exact GetAlarmsWithTags_scripted_bad marshal tags query pre tok good more bad _ later ds fuel
    hq hpre hg (getAlarmName_of_Split_ne hp hl) hfuel

/-- The resources `alarm` and `a:b:c` of C2, and a search whose second page holds the
first of them after a good identifier. -/
theorem getAlarmName_resource_segments_witness :
    getAlarmName "arn:aws:cloudwatch:us-west-2:1234567890:alarm" =
        .error "cannot parse alarm ARN resource alarm" ∧
      getAlarmName "arn:aws:cloudwatch:us-west-2:1234567890:a:b:c" =
        .error "cannot parse alarm ARN resource a:b:c" ∧
      GetAlarmsWithTags scripted marshalOk 5
          ⟨[searchPage [identifier myAlarmArn] (some "t1")] ++
              searchPage ([identifier otherAlarmArn] ++
                identifier "arn:aws:cloudwatch:us-west-2:1234567890:alarm" :: [identifier myAlarmArn])
                none :: [],
            [describePage [] [some myMetricAlarm] none]⟩ [("env", "test")] =
        { outcome := .returned [] (some "cannot parse alarm ARN resource alarm")
          events := searchEvents "{}" none
            ([searchPage [identifier myAlarmArn] (some "t1")] ++
              [searchPage ([identifier otherAlarmArn] ++
                identifier "arn:aws:cloudwatch:us-west-2:1234567890:alarm" :: [identifier myAlarmArn])
                none]) } :=
  ⟨(getAlarmName_resource_segments.1 _ ⟨"aws", "cloudwatch", "us-west-2", "1234567890", "alarm"⟩
      (by decide) (by decide)).1,
    (getAlarmName_resource_segments.1 _ ⟨"aws", "cloudwatch", "us-west-2", "1234567890", "a:b:c"⟩
      (by decide) (by decide)).1,
    getAlarmName_resource_segments.2 marshalOk [("env", "test")] "{}"
      [searchPage [identifier myAlarmArn] (some "t1")] none [identifier otherAlarmArn]
      [identifier myAlarmArn] "arn:aws:cloudwatch:us-west-2:1234567890:alarm"
      ⟨"aws", "cloudwatch", "us-west-2", "1234567890", "alarm"⟩ []
      [describePage [] [some myMetricAlarm] none] 5 (by rfl) (by decide) (by decide) (by decide)
      (by decide) (by decide)⟩

/-- C3: when the first identifier of a search that yields no name is a string that is not
a well-formed ARN (it does not start with `arn:`, or it has fewer than 6 sections),
`GetAlarmsWithTags` returns a nil list and the error `parse alarm ARN <string>: <cause>`,
whatever identifiers follow it and however many good ones come before it, and the calls
it has made are search calls only. -/
theorem GetAlarmsWithTags_malformed_arn (marshal : query → Except String String)
    (tags : List (String × String)) (query : String) (pre : List SearchRet)
    (tok : Option String) (good more : List (Option ResourceIdentifier)) (bad : String)
    (later : List SearchRet) (ds : List DescribeRet) (fuel : Nat)
    (hq : searchResourceQuery marshal tags = .ok query)
    (hpre : ∀ p ∈ pre, searchOk p = true ∧ (searchToken p).isSome = true)
    (hg : (good.all fun i => (nameOf i).isSome) = true)
    (hbad : HasPrefix bad arnPrefix = false ∨ (Split bad).length < 6)
    (hfuel : pre.length < fuel) :
    GetAlarmsWithTags scripted marshal fuel
        ⟨pre ++ searchPage (good ++ identifier bad :: more) tok :: later, ds⟩ tags =
      { outcome := .returned [] (some ("parse alarm ARN " ++ bad ++ ": " ++
          (if HasPrefix bad arnPrefix then invalidSections else invalidPrefix)))
        events := searchEvents query none
          (pre ++ [searchPage (good ++ identifier bad :: more) tok]) } ∧
    ∀ e ∈ (GetAlarmsWithTags scripted marshal fuel
        ⟨pre ++ searchPage (good ++ identifier bad :: more) tok :: later, ds⟩ tags).events,
      e.isDescribe = false := by
  have h := GetAlarmsWithTags_scripted_bad marshal tags query pre tok good more bad _ later ds
    fuel hq hpre hg (getAlarmName_of_Parse_error (Parse_error_eq hbad)) hfuel
  refine ⟨h, ?_⟩
  rw [h]
  exact searchEvents_isSearch _ _ _

/-- A search whose second page holds `not-an-arn` between two good identifiers. -/
theorem GetAlarmsWithTags_malformed_arn_witness :
    GetAlarmsWithTags scripted marshalOk 5
        ⟨[searchPage [identifier myAlarmArn] (some "t1")] ++
            searchPage ([identifier otherAlarmArn] ++ identifier "not-an-arn" ::
              [identifier myAlarmArn]) (some "t2") :: [searchPage [] none],
          [describePage [] [some myMetricAlarm] none]⟩ [("env", "test")] =
      { outcome := .returned [] (some ("parse alarm ARN " ++ "not-an-arn" ++ ": " ++
          (if HasPrefix "not-an-arn" arnPrefix then invalidSections else invalidPrefix)))
        events := searchEvents "{}" none
          ([searchPage [identifier myAlarmArn] (some "t1")] ++
            [searchPage ([identifier otherAlarmArn] ++ identifier "not-an-arn" ::
              [identifier myAlarmArn]) (some "t2")]) } ∧
    ∀ e ∈ (GetAlarmsWithTags scripted marshalOk 5
        ⟨[searchPage [identifier myAlarmArn] (some "t1")] ++
            searchPage ([identifier otherAlarmArn] ++ identifier "not-an-arn" ::
              [identifier myAlarmArn]) (some "t2") :: [searchPage [] none],
          [describePage [] [some myMetricAlarm] none]⟩ [("env", "test")]).events,
      e.isDescribe = false :=
  GetAlarmsWithTags_malformed_arn marshalOk [("env", "test")] "{}"
    [searchPage [identifier myAlarmArn] (some "t1")] (some "t2") [identifier otherAlarmArn]
    [identifier myAlarmArn] "not-an-arn" [searchPage [] none]
    [describePage [] [some myMetricAlarm] none] 5 (by rfl) (by decide) (by decide) (by decide)
    (by decide)

/-! ## Runs against scripted clients -/

theorem scriptNames_append (a b : List SearchRet) :
    scriptNames (a ++ b) = scriptNames a ++ scriptNames b := by
  induction a with
  | nil => rfl
  | cons r a ih => simp [scriptNames, ih]

theorem scriptStatuses_append (a b : List DescribeRet) :
    scriptStatuses (a ++ b) = scriptStatuses a ++ scriptStatuses b := by
  induction a with
  | nil => rfl
  | cons r a ih => simp [scriptStatuses, ih]

theorem searchEvents_countP (query : String) (tok : Option String) (a : List SearchRet) :
    (searchEvents query tok a).countP Event.isSearch = a.length ∧
      (searchEvents query tok a).countP Event.isDescribe = 0 := by
  induction a generalizing tok with
  | nil => simp [searchEvents]
  | cons r a ih => simp [searchEvents, Event.isSearch, Event.isDescribe, ih]

theorem describeEvents_countP (names : List String) (tok : Option String)
    (a : List DescribeRet) :
    (describeEvents names tok a).countP Event.isDescribe = a.length ∧
      (describeEvents names tok a).countP Event.isSearch = 0 := by
  induction a generalizing tok with
  | nil => simp [describeEvents]
  | cons r a ih => simp [describeEvents, Event.isSearch, Event.isDescribe, ih]

/-- The search stage against a script whose pages `pre` carry a token and whose page
`last` carries none, all handled without error: the names of all pages, one call a page. -/
theorem searchLoop_scripted_ok (query : String) (pre : List SearchRet) (last : SearchRet)
    (later : List SearchRet) (ds : List DescribeRet) (fuel : Nat)
    (hpre : ∀ p ∈ pre, searchOk p = true ∧ (searchToken p).isSome = true)
    (hlast : searchOk last = true) (hlt : searchToken last = none)
    (hfuel : pre.length < fuel) :
    searchLoop scripted query fuel ⟨pre ++ last :: later, ds⟩ none [] =
      { result := .next (scriptNames (pre ++ [last]))
        events := searchEvents query none (pre ++ [last])
        state := ⟨later, ds⟩ } := by
  obtain ⟨k, rfl⟩ : ∃ k, fuel = pre.length + (k + 1) := ⟨fuel - pre.length - 1, by omega⟩
  simp only [searchLoop_scripted_pre _ _ _ _ _ _ _ hpre,
    searchLoop_scripted_last _ _ _ _ _ _ _ hlast hlt, searchEvents_append, searchEvents,
    scriptNames_append, scriptNames, List.nil_append, List.append_nil]

/-- The describe stage against a script whose pages `pre` carry a token and whose page
`last` carries none, all handled without error: the statuses of all pages, one call a
page. -/
theorem describeLoop_scripted_ok (names : List String) (ss : List SearchRet)
    (pre : List DescribeRet) (last : DescribeRet) (later : List DescribeRet) (fuel : Nat)
    (hpre : ∀ d ∈ pre, describeOk d = true ∧ (describeToken d).isSome = true)
    (hlast : describeOk last = true) (hlt : describeToken last = none)
    (hfuel : pre.length < fuel) :
    describeLoop scripted names fuel ⟨ss, pre ++ last :: later⟩ none [] =
      { result := .next (scriptStatuses (pre ++ [last]))
        events := describeEvents names none (pre ++ [last])
        state := ⟨ss, later⟩ } := by
  obtain ⟨k, rfl⟩ : ∃ k, fuel = pre.length + (k + 1) := ⟨fuel - pre.length - 1, by omega⟩
  simp only [describeLoop_scripted_pre _ _ _ _ _ _ _ hpre,
    describeLoop_scripted_last _ _ _ _ _ _ _ hlast hlt, describeEvents_append, describeEvents,
    scriptStatuses_append, scriptStatuses, List.nil_append, List.append_nil]

/-- A run against scripts on which both stages go through. -/
theorem GetAlarmsWithTags_scripted_ok (marshal : query → Except String String)
    (tags : List (String × String)) (query : String) (pre : List SearchRet) (last : SearchRet)
    (later : List SearchRet) (dpre : List DescribeRet) (dlast : DescribeRet)
    (dlater : List DescribeRet) (fuel : Nat)
    (hq : searchResourceQuery marshal tags = .ok query)
    (hpre : ∀ p ∈ pre, searchOk p = true ∧ (searchToken p).isSome = true)
    (hlast : searchOk last = true) (hlt : searchToken last = none)
    (hdpre : ∀ d ∈ dpre, describeOk d = true ∧ (describeToken d).isSome = true)
    (hdlast : describeOk dlast = true) (hdlt : describeToken dlast = none)
    (hfuel : pre.length < fuel) (hdfuel : dpre.length < fuel) :
    GetAlarmsWithTags scripted marshal fuel ⟨pre ++ last :: later, dpre ++ dlast :: dlater⟩ tags =
      { outcome := .returned (scriptStatuses (dpre ++ [dlast])) none
        events := searchEvents query none (pre ++ [last]) ++
          describeEvents (scriptNames (pre ++ [last])) none (dpre ++ [dlast]) } := by
  simp only [GetAlarmsWithTags, hq, searchLoop_scripted_ok _ _ _ _ _ _ hpre hlast hlt hfuel,
    describeLoop_scripted_ok _ _ _ _ _ _ hdpre hdlast hdlt hdfuel]

/-- C4: both loops of `GetAlarmsWithTags` stop exactly at the first response without a
token. Against scripted responses that are handled without error (no error from the call,
every identifier yielding a name, every alarm entry a record with a timestamp), where the
search responses `pre` and the describe responses `dpre` carry a token and `last` and
`dlast` carry none, the run makes exactly `pre.length + 1` search calls and then exactly
`dpre.length + 1` describe calls; in each stage the first call has no token and every
later call the token of the response before it. How many items a page holds plays no
part. -/
theorem GetAlarmsWithTags_pagination (marshal : query → Except String String)
    (tags : List (String × String)) (query : String) (pre : List SearchRet) (last : SearchRet)
    (later : List SearchRet) (dpre : List DescribeRet) (dlast : DescribeRet)
    (dlater : List DescribeRet) (fuel : Nat)
    (hq : searchResourceQuery marshal tags = .ok query)
    (hpre : ∀ p ∈ pre, searchOk p = true ∧ (searchToken p).isSome = true)
    (hlast : searchOk last = true) (hlt : searchToken last = none)
    (hdpre : ∀ d ∈ dpre, describeOk d = true ∧ (describeToken d).isSome = true)
    (hdlast : describeOk dlast = true) (hdlt : describeToken dlast = none)
    (hfuel : pre.length < fuel) (hdfuel : dpre.length < fuel) :
    (GetAlarmsWithTags scripted marshal fuel
        ⟨pre ++ last :: later, dpre ++ dlast :: dlater⟩ tags).events =
      searchEvents query none (pre ++ [last]) ++
        describeEvents (scriptNames (pre ++ [last])) none (dpre ++ [dlast]) ∧
    (GetAlarmsWithTags scripted marshal fuel
        ⟨pre ++ last :: later, dpre ++ dlast :: dlater⟩ tags).events.countP Event.isSearch =
      pre.length + 1 ∧
    (GetAlarmsWithTags scripted marshal fuel
        ⟨pre ++ last :: later, dpre ++ dlast :: dlater⟩ tags).events.countP Event.isDescribe =
      dpre.length + 1 := by
  rw [GetAlarmsWithTags_scripted_ok marshal tags query pre last later dpre dlast dlater fuel hq
    hpre hlast hlt hdpre hdlast hdlt hfuel hdfuel]
  refine ⟨rfl, ?_, ?_⟩
  · simp [List.countP_append, (searchEvents_countP _ _ _).1, (describeEvents_countP _ _ _).2]
  · simp [List.countP_append, (searchEvents_countP _ _ _).2, (describeEvents_countP _ _ _).1]

/-- An empty search page with a token does not stop the search loop and a page with an
item and no token does; the same for the describe loop. Two calls each, the third
response of each script is never asked for. -/
theorem GetAlarmsWithTags_pagination_witness :
    (GetAlarmsWithTags scripted marshalOk 3
        ⟨[searchPage [] (some "s1")] ++ searchPage [identifier myAlarmArn] none ::
            [searchPage [identifier otherAlarmArn] none],
          [describePage [] [] (some "d1")] ++ describePage [] [some myMetricAlarm] none ::
            [describePage [some myCompositeAlarm] [] none]⟩ [("env", "test")]).events =
      searchEvents "{}" none
          ([searchPage [] (some "s1")] ++ [searchPage [identifier myAlarmArn] none]) ++
        describeEvents
          (scriptNames ([searchPage [] (some "s1")] ++ [searchPage [identifier myAlarmArn] none]))
          none ([describePage [] [] (some "d1")] ++ [describePage [] [some myMetricAlarm] none]) ∧
    (GetAlarmsWithTags scripted marshalOk 3
        ⟨[searchPage [] (some "s1")] ++ searchPage [identifier myAlarmArn] none ::
            [searchPage [identifier otherAlarmArn] none],
          [describePage [] [] (some "d1")] ++ describePage [] [some myMetricAlarm] none ::
            [describePage [some myCompositeAlarm] [] none]⟩
        [("env", "test")]).events.countP Event.isSearch = [searchPage [] (some "s1")].length + 1 ∧
    (GetAlarmsWithTags scripted marshalOk 3
        ⟨[searchPage [] (some "s1")] ++ searchPage [identifier myAlarmArn] none ::
            [searchPage [identifier otherAlarmArn] none],
          [describePage [] [] (some "d1")] ++ describePage [] [some myMetricAlarm] none ::
            [describePage [some myCompositeAlarm] [] none]⟩
        [("env", "test")]).events.countP Event.isDescribe =
      [describePage [] [] (some "d1")].length + 1 :=
  GetAlarmsWithTags_pagination marshalOk [("env", "test")] "{}" [searchPage [] (some "s1")]
    (searchPage [identifier myAlarmArn] none) [searchPage [identifier otherAlarmArn] none]
    [describePage [] [] (some "d1")] (describePage [] [some myMetricAlarm] none)
    [describePage [some myCompositeAlarm] [] none] 3 (by rfl) (by decide) (by decide)
    (by decide) (by decide) (by decide) (by decide) (by decide) (by decide)

/-! ## Runs against any client -/

theorem compositeAlarmsStatus_type {alarms : List (Option CompositeAlarm)}
    {l : List AlarmStatus} (h : compositeAlarmsStatus alarms = some l) :
    ∀ s ∈ l, s.Type_ = "Composite" := by
  obtain ⟨l1, hl, hs⟩ := compositeAlarmsStatusLoop_some h
  simp only [List.nil_append] at hl
  subst hl
  intro s hs1
  have hm : some s ∈ alarms.map compositeSlot := by rw [hs]; exact List.mem_map_of_mem _ hs1
  obtain ⟨a, _, ha⟩ := List.mem_map.mp hm
  match a, ha with
  | some alarm, ha =>
    cases ht : alarm.StateUpdatedTimestamp with
    | none => simp [compositeSlot, ht] at ha
    | some t =>
      simp only [compositeSlot, ht, Option.map_some', Option.some.injEq] at ha
      rw [← ha]; rfl

theorem metricAlarmsStatus_type {alarms : List (Option MetricAlarm)}
    {l : List AlarmStatus} (h : metricAlarmsStatus alarms = some l) :
    ∀ s ∈ l, s.Type_ = "Metric" := by
  obtain ⟨l1, hl, hs⟩ := metricAlarmsStatusLoop_some h
  simp only [List.nil_append] at hl
  subst hl
  intro s hs1
  have hm : some s ∈ alarms.map metricSlot := by rw [hs]; exact List.mem_map_of_mem _ hs1
  obtain ⟨a, _, ha⟩ := List.mem_map.mp hm
  match a, ha with
  | some alarm, ha =>
    cases ht : alarm.StateUpdatedTimestamp with
    | none => simp [metricSlot, ht] at ha
    | some t =>
      simp only [metricSlot, ht, Option.map_some', Option.some.injEq] at ha
      rw [← ha]; rfl

/-- A run that returns a list and no error, against any clients: the list is, entry by
entry, what the describe calls of the run reported. -/
theorem GetAlarmsWithTags_returned_slots {σ : Type} (cw : CloudWatch σ)
    (marshal : query → Except String String) (fuel : Nat) (st : σ)
    (tags : List (String × String)) (alarmStatus : List AlarmStatus)
    (h : (GetAlarmsWithTags cw marshal fuel st tags).outcome = .returned alarmStatus none) :
    alarmStatus.map some = describedSlots (GetAlarmsWithTags cw marshal fuel st tags).events ∧
    alarmStatus.length = describedCount (GetAlarmsWithTags cw marshal fuel st tags).events := by
  refine ⟨?_, ?_⟩
  all_goals
    cases hq : searchResourceQuery marshal tags with
    | error e => simp [GetAlarmsWithTags, hq] at h
    | ok q =>
      simp only [GetAlarmsWithTags, hq] at h ⊢
      cases hs : (searchLoop cw q fuel st none []).result with
      | fail e => simp [hs] at h
      | panic => simp [hs] at h
      | outOfFuel => simp [hs] at h
      | next names =>
        simp only [hs] at h ⊢
        cases hd : (describeLoop cw names fuel (searchLoop cw q fuel st none []).state none
            []).result with
        | fail e => simp [hd] at h
        | panic => simp [hd] at h
        | outOfFuel => simp [hd] at h
        | next sts =>
          simp only [hd, Outcome.returned.injEq, and_true] at h ⊢
          subst h
          obtain ⟨h1, h2⟩ := describeLoop_next cw names fuel _ _ _ _ hd
          have hsearch := searchLoop_events_search cw q fuel st none []
          simp [describedSlots_append, describedCount_append, describedSlots_of_search _ hsearch,
            describedCount_of_search _ hsearch, h1, h2]

/-- C5: when `GetAlarmsWithTags` returns a list and no error, against any clients, the
list is, entry by entry, the concatenation over the describe calls of the run, in call
order, of the statuses of the composite alarms of the response (each tagged `Composite`)
followed by the statuses of its metric alarms (each tagged `Metric`), and its length is
the number of alarm entries of all responses. Against scripted responses that are handled
without error the run does return, with the statuses of the pages in script order. The
tag `compositeAlarmsStatus` and `metricAlarmsStatus` give is fixed, whatever the records
hold. -/
theorem GetAlarmsWithTags_statuses :
    (∀ {σ : Type} (cw : CloudWatch σ) (marshal : query → Except String String) (fuel : Nat)
      (st : σ) (tags : List (String × String)) (alarmStatus : List AlarmStatus),
      (GetAlarmsWithTags cw marshal fuel st tags).outcome = .returned alarmStatus none →
      alarmStatus.map some = describedSlots (GetAlarmsWithTags cw marshal fuel st tags).events ∧
      alarmStatus.length = describedCount (GetAlarmsWithTags cw marshal fuel st tags).events) ∧
    (∀ (marshal : query → Except String String) (tags : List (String × String))
      (query : String) (pre : List SearchRet) (last : SearchRet) (later : List SearchRet)
      (dpre : List DescribeRet) (dlast : DescribeRet) (dlater : List DescribeRet) (fuel : Nat),
      searchResourceQuery marshal tags = .ok query →
      (∀ p ∈ pre, searchOk p = true ∧ (searchToken p).isSome = true) →
      searchOk last = true → searchToken last = none →
      (∀ d ∈ dpre, describeOk d = true ∧ (describeToken d).isSome = true) →
      describeOk dlast = true → describeToken dlast = none →
      pre.length < fuel → dpre.length < fuel →
      (GetAlarmsWithTags scripted marshal fuel
          ⟨pre ++ last :: later, dpre ++ dlast :: dlater⟩ tags).outcome =
        .returned (scriptStatuses (dpre ++ [dlast])) none) ∧
    (∀ (alarms : List (Option CompositeAlarm)) (l : List AlarmStatus),
      compositeAlarmsStatus alarms = some l → ∀ s ∈ l, s.Type_ = "Composite") ∧
    (∀ (alarms : List (Option MetricAlarm)) (l : List AlarmStatus),
      metricAlarmsStatus alarms = some l → ∀ s ∈ l, s.Type_ = "Metric") := by
  refine ⟨fun cw marshal fuel st tags alarmStatus h =>
      GetAlarmsWithTags_returned_slots cw marshal fuel st tags alarmStatus h, ?_,
    fun _ _ h => compositeAlarmsStatus_type h, fun _ _ h => metricAlarmsStatus_type h⟩
  intro marshal tags query pre last later dpre dlast dlater fuel hq hpre hlast hlt hdpre hdlast
    hdlt hfuel hdfuel
  rw [GetAlarmsWithTags_scripted_ok marshal tags query pre last later dpre dlast dlater fuel hq
    hpre hlast hlt hdpre hdlast hdlt hfuel hdfuel]

/-- A run against two describe pages, the first with a composite and a metric alarm: it
returns the three statuses, composite before metric, page after page. -/
theorem GetAlarmsWithTags_statuses_witness :
    (GetAlarmsWithTags scripted marshalOk 3
        ⟨[] ++ searchPage [identifier myAlarmArn, identifier otherAlarmArn] none :: [],
          [describePage [some myCompositeAlarm] [some myMetricAlarm] (some "d1")] ++
            describePage [] [some myMetricAlarm] none :: []⟩ [("env", "test")]).outcome =
      .returned (scriptStatuses
        ([describePage [some myCompositeAlarm] [some myMetricAlarm] (some "d1")] ++
          [describePage [] [some myMetricAlarm] none])) none ∧
    [statusOf "Composite" (some otherAlarmArn) (some "Other") (some "children in alarm")
          (some "ALARM") ⟨1600000100⟩,
        statusOf "Metric" (some myAlarmArn) (some "MyAlarm") (some "threshold not breached")
          (some "OK") ⟨1600000000⟩,
        statusOf "Metric" (some myAlarmArn) (some "MyAlarm") (some "threshold not breached")
          (some "OK") ⟨1600000000⟩].map some =
      describedSlots (GetAlarmsWithTags scripted marshalOk 3
        ⟨[searchPage [identifier myAlarmArn, identifier otherAlarmArn] none],
          [describePage [some myCompositeAlarm] [some myMetricAlarm] (some "d1"),
            describePage [] [some myMetricAlarm] none]⟩ [("env", "test")]).events :=
  ⟨GetAlarmsWithTags_statuses.2.1 marshalOk [("env", "test")] "{}" []
      (searchPage [identifier myAlarmArn, identifier otherAlarmArn] none) []
      [describePage [some myCompositeAlarm] [some myMetricAlarm] (some "d1")]
      (describePage [] [some myMetricAlarm] none) [] 3 (by rfl) (by decide) (by decide)
      (by decide) (by decide) (by decide) (by decide) (by decide) (by decide),
    (GetAlarmsWithTags_statuses.1 scripted marshalOk 3
      ⟨[searchPage [identifier myAlarmArn, identifier otherAlarmArn] none],
        [describePage [some myCompositeAlarm] [some myMetricAlarm] (some "d1"),
          describePage [] [some myMetricAlarm] none]⟩ [("env", "test")] _ (by decide)).1⟩

/-- C6: `GetAlarmsWithTags` is all-or-nothing. Whatever the clients do, a run that returns
an error returns the nil list with it. In particular, when the search call fails after
pages that yielded names, and when the describe call fails after pages that yielded
statuses, the run returns the wrapped error and the nil list. -/
theorem GetAlarmsWithTags_all_or_nothing :
    (∀ {σ : Type} (cw : CloudWatch σ) (marshal : query → Except String String) (fuel : Nat)
      (st : σ) (tags : List (String × String)) (alarmStatus : List AlarmStatus) (err : String),
      (GetAlarmsWithTags cw marshal fuel st tags).outcome = .returned alarmStatus (some err) →
      alarmStatus = []) ∧
    (∀ (marshal : query → Except String String) (tags : List (String × String))
      (query : String) (pre : List SearchRet) (out : Option SearchResourcesOutput)
      (err : String) (later : List SearchRet) (ds : List DescribeRet) (fuel : Nat),
      searchResourceQuery marshal tags = .ok query →
      (∀ p ∈ pre, searchOk p = true ∧ (searchToken p).isSome = true) →
      pre.length < fuel →
      GetAlarmsWithTags scripted marshal fuel ⟨pre ++ (out, some err) :: later, ds⟩ tags =
        { outcome := .returned [] (some ("search CloudWatch alarm resources: " ++ err))
          events := searchEvents query none (pre ++ [(out, some err)]) }) ∧
    (∀ (marshal : query → Except String String) (tags : List (String × String))
      (query : String) (pre : List SearchRet) (last : SearchRet) (later : List SearchRet)
      (dpre : List DescribeRet) (out : Option DescribeAlarmsOutput) (err : String)
      (dlater : List DescribeRet) (fuel : Nat),
      searchResourceQuery marshal tags = .ok query →
      (∀ p ∈ pre, searchOk p = true ∧ (searchToken p).isSome = true) →
      searchOk last = true → searchToken last = none →
      (∀ d ∈ dpre, describeOk d = true ∧ (describeToken d).isSome = true) →
      pre.length < fuel → dpre.length < fuel →
      GetAlarmsWithTags scripted marshal fuel
          ⟨pre ++ last :: later, dpre ++ (out, some err) :: dlater⟩ tags =
        { outcome := .returned [] (some ("describe CloudWatch alarms: " ++ err))
          events := searchEvents query none (pre ++ [last]) ++
            describeEvents (scriptNames (pre ++ [last])) none (dpre ++ [(out, some err)]) }) := by
  refine ⟨?_, ?_, ?_⟩
  · intro σ cw marshal fuel st tags alarmStatus err h
    cases hq : searchResourceQuery marshal tags with
    | error e =>
      simp only [GetAlarmsWithTags, hq, Outcome.returned.injEq] at h
      exact h.1.symm
    | ok q =>
      simp only [GetAlarmsWithTags, hq] at h
      cases hs : (searchLoop cw q fuel st none []).result with
      | fail e => simp only [hs, Outcome.returned.injEq] at h; exact h.1.symm
      | panic => simp [hs] at h
      | outOfFuel => simp [hs] at h
      | next names =>
        simp only [hs] at h
        cases hd : (describeLoop cw names fuel (searchLoop cw q fuel st none []).state none
            []).result with
        | fail e => simp only [hd, Outcome.returned.injEq] at h; exact h.1.symm
        | panic => simp [hd] at h
        | outOfFuel => simp [hd] at h
        | next sts => simp [hd] at h
  · intro marshal tags query pre out err later ds fuel hq hpre hfuel
    obtain ⟨k, rfl⟩ : ∃ k, fuel = pre.length + (k + 1) := ⟨fuel - pre.length - 1, by omega⟩
    simp only [GetAlarmsWithTags, hq, searchLoop_scripted_pre _ _ _ _ _ _ _ hpre,
      searchLoop_scripted_err, searchEvents_append, searchEvents]
  · intro marshal tags query pre last later dpre out err dlater fuel hq hpre hlast hlt hdpre
      hfuel hdfuel
    obtain ⟨k, rfl⟩ : ∃ k, fuel = dpre.length + (k + 1) := ⟨fuel - dpre.length - 1, by omega⟩
    simp only [GetAlarmsWithTags, hq, searchLoop_scripted_ok _ _ _ _ _ _ hpre hlast hlt hfuel,
      describeLoop_scripted_pre _ _ _ _ _ _ _ hdpre, describeLoop_scripted_err,
      describeEvents_append, describeEvents]

/-- The two scenarios of C6: a search that fails on page 2 after page 1 gave a name, and a
describe that fails on page 2 after page 1 gave a status. -/
theorem GetAlarmsWithTags_all_or_nothing_witness :
    GetAlarmsWithTags scripted marshalOk 4
        ⟨[searchPage [identifier myAlarmArn] (some "s1")] ++ (none, some "throttled") :: [],
          [describePage [] [some myMetricAlarm] none]⟩ [("env", "test")] =
      { outcome := .returned [] (some ("search CloudWatch alarm resources: " ++ "throttled"))
        events := searchEvents "{}" none
          ([searchPage [identifier myAlarmArn] (some "s1")] ++ [(none, some "throttled")]) } ∧
    GetAlarmsWithTags scripted marshalOk 4
        ⟨[] ++ searchPage [identifier myAlarmArn] none :: [],
          [describePage [] [some myMetricAlarm] (some "d1")] ++ (none, some "throttled") :: []⟩
        [("env", "test")] =
      { outcome := .returned [] (some ("describe CloudWatch alarms: " ++ "throttled"))
        events := searchEvents "{}" none ([] ++ [searchPage [identifier myAlarmArn] none]) ++
          describeEvents (scriptNames ([] ++ [searchPage [identifier myAlarmArn] none])) none
            ([describePage [] [some myMetricAlarm] (some "d1")] ++ [(none, some "throttled")]) } :=
  ⟨GetAlarmsWithTags_all_or_nothing.2.1 marshalOk [("env", "test")] "{}"
      [searchPage [identifier myAlarmArn] (some "s1")] none "throttled" []
      [describePage [] [some myMetricAlarm] none] 4 (by rfl) (by decide) (by decide),
    GetAlarmsWithTags_all_or_nothing.2.2 marshalOk [("env", "test")] "{}" []
      (searchPage [identifier myAlarmArn] none) []
      [describePage [] [some myMetricAlarm] (some "d1")] none "throttled" [] 4 (by rfl)
      (by decide) (by decide) (by decide) (by decide) (by decide) (by decide)⟩

/-! ## Normalisation -/

/-- C7, refuted as stated: a composite alarm and a metric alarm whose state-transition
timestamp is absent make `compositeAlarmsStatus` and `metricAlarmsStatus` panic (`none`)
instead of giving a status with a zero time. -/
theorem alarmsStatus_nil_timestamp_panics :
    compositeAlarmsStatus
        [some { AlarmArn := some otherAlarmArn, AlarmName := some "Other"
                StateReason := some "children in alarm", StateValue := some "ALARM"
                StateUpdatedTimestamp := none, AlarmRule := none }] = none ∧
      metricAlarmsStatus
        [some { AlarmArn := some myAlarmArn, AlarmName := some "MyAlarm"
                StateReason := some "threshold not breached", StateValue := some "OK"
                StateUpdatedTimestamp := none, MetricName := none }] = none := by
  constructor <;> rfl

/-- C7, amended: for every composite alarm and every metric alarm record whose
state-transition timestamp is present, also when its ARN, name, state reason or state
value is absent, `compositeAlarmsStatus` and `metricAlarmsStatus` do not panic and give
the status with the empty string for each absent string field and the Unix seconds of the
timestamp; and so for every list of such records, record by record. -/
theorem alarmsStatus_of_timestamp :
    (∀ (alarm : CompositeAlarm) (t : Time), alarm.StateUpdatedTimestamp = some t →
      compositeAlarmsStatus [some alarm] =
        some [{ Arn := alarm.AlarmArn.getD "", Name := alarm.AlarmName.getD ""
                Reason := alarm.StateReason.getD "", Status := alarm.StateValue.getD ""
                Type_ := "Composite", UpdatedTimes := t.Unix }]) ∧
    (∀ (alarm : MetricAlarm) (t : Time), alarm.StateUpdatedTimestamp = some t →
      metricAlarmsStatus [some alarm] =
        some [{ Arn := alarm.AlarmArn.getD "", Name := alarm.AlarmName.getD ""
                Reason := alarm.StateReason.getD "", Status := alarm.StateValue.getD ""
                Type_ := "Metric", UpdatedTimes := t.Unix }]) ∧
    (∀ alarms : List CompositeAlarm, (∀ a ∈ alarms, a.StateUpdatedTimestamp.isSome = true) →
      ∃ l, compositeAlarmsStatus (alarms.map some) = some l ∧
        l.map some = alarms.map fun a => compositeSlot (some a)) ∧
    (∀ alarms : List MetricAlarm, (∀ a ∈ alarms, a.StateUpdatedTimestamp.isSome = true) →
      ∃ l, metricAlarmsStatus (alarms.map some) = some l ∧
        l.map some = alarms.map fun a => metricSlot (some a)) := by
  refine ⟨?_, ?_, ?_, ?_⟩
  · intro alarm t ht
    simp [compositeAlarmsStatus, compositeAlarmsStatusLoop, ht, StringValue_eq_getD,
      compositeAlarmType]
  · intro alarm t ht
    simp [metricAlarmsStatus, metricAlarmsStatusLoop, ht, StringValue_eq_getD, metricAlarmType]
  · intro alarms h
    have hall : ((alarms.map some).all fun a => (compositeSlot a).isSome) = true := by
      simp only [List.all_eq_true, List.mem_map]
      rintro _ ⟨a, ha, rfl⟩
      obtain ⟨t, ht⟩ := Option.isSome_iff_exists.mp (h a ha)
      simp [compositeSlot, ht]
    refine ⟨_, compositeAlarmsStatusLoop_ok _ [] hall, ?_⟩
    obtain ⟨l, hl, hs⟩ := compositeAlarmsStatusLoop_some (compositeAlarmsStatusLoop_ok _ [] hall)
    rw [hl]
    simpa using hs.symm
  · intro alarms h
    have hall : ((alarms.map some).all fun a => (metricSlot a).isSome) = true := by
      simp only [List.all_eq_true, List.mem_map]
      rintro _ ⟨a, ha, rfl⟩
      obtain ⟨t, ht⟩ := Option.isSome_iff_exists.mp (h a ha)
      simp [metricSlot, ht]
    refine ⟨_, metricAlarmsStatusLoop_ok _ [] hall, ?_⟩
    obtain ⟨l, hl, hs⟩ := metricAlarmsStatusLoop_some (metricAlarmsStatusLoop_ok _ [] hall)
    rw [hl]
    simpa using hs.symm

/-- A composite alarm and a metric alarm with nothing but a timestamp. -/
theorem alarmsStatus_of_timestamp_witness :
    compositeAlarmsStatus [some ⟨none, none, none, none, some ⟨1600000000⟩, none⟩] =
        some [{ Arn := "", Name := "", Reason := "", Status := "", Type_ := "Composite"
                UpdatedTimes := 1600000000 }] ∧
      metricAlarmsStatus [some ⟨none, none, none, none, some ⟨1600000000⟩, none⟩] =
        some [{ Arn := "", Name := "", Reason := "", Status := "", Type_ := "Metric"
                UpdatedTimes := 1600000000 }] :=
  ⟨alarmsStatus_of_timestamp.1 ⟨none, none, none, none, some ⟨1600000000⟩, none⟩ ⟨1600000000⟩ rfl,
    alarmsStatus_of_timestamp.2.1 ⟨none, none, none, none, some ⟨1600000000⟩, none⟩
      ⟨1600000000⟩ rfl⟩

/-! ## The search query -/

theorem rangeTags_eq (tags : List (String × String)) (acc : List keyVal) :
    rangeTags tags acc = acc ++ tags.map fun kv => { Key := kv.1, Values := [kv.2] } := by
  induction tags generalizing acc with
  | nil => simp [rangeTags]
  | cons kv rest ih =>
    obtain ⟨k, v⟩ := kv
    simp [rangeTags, ih]

/-- C8: for every tag map, the empty one included, and every order in which `range` may
yield its entries, the query structure `searchResourceQuery` builds and marshals has the
one resource type filter `AWS::CloudWatch::Alarm` and as many tag filters as the map has
entries, each with exactly one value; a pair is the key and the value of a filter exactly
when it is an entry of the map. -/
theorem searchResourceQuery_filters (marshal : query → Except String String)
    (tags order : List (String × String)) (h : order.Perm tags) :
    searchResourceQuery marshal order = marshal (queryStruct order) ∧
    (queryStruct order).ResourceTypeFilters = ["AWS::CloudWatch::Alarm"] ∧
    (queryStruct order).TagFilters.length = tags.length ∧
    (∀ f ∈ (queryStruct order).TagFilters, f.Values.length = 1) ∧
    (∀ k v, (∃ f ∈ (queryStruct order).TagFilters, f.Key = k ∧ f.Values = [v]) ↔
      (k, v) ∈ tags) := by
  refine ⟨rfl, rfl, ?_, ?_, ?_⟩
  · simp [queryStruct, rangeTags_eq, h.length_eq]
  · intro f hf
    simp only [queryStruct, rangeTags_eq, List.nil_append, List.mem_map] at hf
    obtain ⟨kv, _, rfl⟩ := hf
    rfl
  · intro k v
    simp only [queryStruct, rangeTags_eq, List.nil_append, List.mem_map]
    constructor
    · rintro ⟨f, ⟨kv, hkv, rfl⟩, hk, hv⟩
      simp only [List.cons.injEq, and_true] at hv
      obtain ⟨k1, v1⟩ := kv
      simp only at hk hv
      subst hk hv
      exact h.mem_iff.mp hkv
    · intro hkv
      exact ⟨_, ⟨(k, v), h.mem_iff.mpr hkv, rfl⟩, rfl, rfl⟩

/-- A map of two tags, ranged over in the other order, and the empty map. -/
theorem searchResourceQuery_filters_witness :
    (queryStruct [("app", "web"), ("env", "test")]).TagFilters =
        [{ Key := "app", Values := ["web"] }, { Key := "env", Values := ["test"] }] ∧
      (queryStruct [("app", "web"), ("env", "test")]).TagFilters.length =
        [("env", "test"), ("app", "web")].length ∧
      (queryStruct []).ResourceTypeFilters = ["AWS::CloudWatch::Alarm"] ∧
      (queryStruct []).TagFilters.length = ([] : List (String × String)).length :=
  ⟨by decide,
    (searchResourceQuery_filters marshalOk [("env", "test"), ("app", "web")]
      [("app", "web"), ("env", "test")] (List.Perm.swap _ _ _)).2.2.1,
    (searchResourceQuery_filters marshalOk [] [] (List.Perm.refl _)).2.1,
    (searchResourceQuery_filters marshalOk [] [] (List.Perm.refl _)).2.2.1⟩

/-! ## The names sent to `DescribeAlarms` -/

/-- C9: in every run of `GetAlarmsWithTags`, against any clients, all search calls come
before all describe calls, and every describe call is sent one and the same `AlarmNames`:
the list that holds, identifier by identifier in page order and in-page order, the name
of every identifier the search calls returned (as many names as identifiers, none
dropped, none merged). -/
theorem GetAlarmsWithTags_describe_names {σ : Type} (cw : CloudWatch σ)
    (marshal : query → Except String String) (fuel : Nat) (st : σ)
    (tags : List (String × String)) :
    ∃ (searches describes : List Event) (alarmNames : List String),
      (GetAlarmsWithTags cw marshal fuel st tags).events = searches ++ describes ∧
      (∀ e ∈ searches, e.isSearch = true) ∧
      (∀ e ∈ describes, ∃ nextToken ret,
        e = .describe { AlarmNames := alarmNames, NextToken := nextToken } ret) ∧
      (describes ≠ [] → List.Forall₂ Yields (searchedIdentifiers searches) alarmNames) := by
  cases hq : searchResourceQuery marshal tags with
  | error e =>
    exact ⟨[], [], [], by simp [GetAlarmsWithTags, hq], by simp, by simp, by simp⟩
  | ok q =>
    have hsearch := searchLoop_events_search cw q fuel st none []
    cases hs : (searchLoop cw q fuel st none []).result with
    | fail e =>
      exact ⟨_, [], [], by simp [GetAlarmsWithTags, hq, hs], hsearch, by simp, by simp⟩
    | panic =>
      exact ⟨_, [], [], by simp [GetAlarmsWithTags, hq, hs], hsearch, by simp, by simp⟩
    | outOfFuel =>
      exact ⟨_, [], [], by simp [GetAlarmsWithTags, hq, hs], hsearch, by simp, by simp⟩
    | next names =>
      obtain ⟨ns, hns, hf⟩ := searchLoop_next cw q fuel st none [] names hs
      simp only [List.nil_append] at hns
      subst hns
      refine ⟨(searchLoop cw q fuel st none []).events,
        (describeLoop cw names fuel (searchLoop cw q fuel st none []).state none []).events,
        names, ?_, hsearch, describeLoop_events cw names fuel _ _ _, fun _ => hf⟩
      simp only [GetAlarmsWithTags, hq, hs]
      cases (describeLoop cw names fuel (searchLoop cw q fuel st none []).state none
        []).result <;> rfl

/-! ## A search that finds no alarm -/

theorem scriptNames_of_empty (pages : List SearchRet)
    (h : ∀ p ∈ pages, searchIdentifiers p = []) : scriptNames pages = [] := by
  induction pages with
  | nil => rfl
  | cons p pages ih =>
    simp [scriptNames, h p (List.mem_cons_self _ _), pageNames,
      ih fun q hq => h q (List.mem_cons_of_mem _ hq)]

/-- C10: when the search stage goes through and no page holds an identifier,
`GetAlarmsWithTags` still calls `DescribeAlarms`, with an empty name list and no token,
right after the last search call and whatever the response will be; and when that
response is handled without error and carries no token, it is the only describe call and
the run returns the statuses of the alarms it reports. -/
theorem GetAlarmsWithTags_no_names (marshal : query → Except String String)
    (tags : List (String × String)) (query : String) (pre : List SearchRet) (last : SearchRet)
    (later : List SearchRet) (d : DescribeRet) (dlater : List DescribeRet) (fuel : Nat)
    (hq : searchResourceQuery marshal tags = .ok query)
    (hpre : ∀ p ∈ pre, searchOk p = true ∧ (searchToken p).isSome = true)
    (hlast : searchOk last = true) (hlt : searchToken last = none)
    (hempty : ∀ p ∈ pre ++ [last], searchIdentifiers p = [])
    (hfuel : pre.length < fuel) :
    (∃ more, (GetAlarmsWithTags scripted marshal fuel
        ⟨pre ++ last :: later, d :: dlater⟩ tags).events =
      searchEvents query none (pre ++ [last]) ++
        .describe { AlarmNames := [], NextToken := none } d :: more) ∧
    (describeOk d = true → describeToken d = none →
      GetAlarmsWithTags scripted marshal fuel ⟨pre ++ last :: later, d :: dlater⟩ tags =
        { outcome := .returned (describeStatuses d) none
          events := searchEvents query none (pre ++ [last]) ++
            [.describe { AlarmNames := [], NextToken := none } d] }) := by
  have hnames := scriptNames_of_empty _ hempty
  constructor
  · obtain ⟨k, rfl⟩ : ∃ k, fuel = k + 1 := ⟨fuel - 1, by omega⟩
    obtain ⟨more, hmore⟩ := describeLoop_scripted_head [] d later dlater k none []
    refine ⟨more, ?_⟩
    simp only [GetAlarmsWithTags, hq, searchLoop_scripted_ok _ _ _ _ _ _ hpre hlast hlt hfuel,
      hnames]
    rw [← hmore]
    cases (describeLoop scripted [] (k + 1) ⟨later, d :: dlater⟩ none []).result <;> rfl
  · intro hd hdt
    have h := GetAlarmsWithTags_scripted_ok marshal tags query pre last later [] d dlater fuel
      hq hpre hlast hlt (by simp) hd hdt hfuel (by simp only [List.length_nil]; omega)
    simpa [hnames, scriptStatuses, describeEvents] using h

/-- Two empty search pages, then the one describe call, which reports a metric alarm. -/
theorem GetAlarmsWithTags_no_names_witness :
    GetAlarmsWithTags scripted marshalOk 3
        ⟨[searchPage [] (some "s1")] ++ searchPage [] none :: [],
          describePage [] [some myMetricAlarm] none :: []⟩ [("env", "test")] =
      { outcome := .returned (describeStatuses (describePage [] [some myMetricAlarm] none)) none
        events := searchEvents "{}" none ([searchPage [] (some "s1")] ++ [searchPage [] none]) ++
          [.describe { AlarmNames := [], NextToken := none }
            (describePage [] [some myMetricAlarm] none)] } :=
  (GetAlarmsWithTags_no_names marshalOk [("env", "test")] "{}" [searchPage [] (some "s1")]
    (searchPage [] none) [] (describePage [] [some myMetricAlarm] none) [] 3 (by rfl)
    (by decide) (by decide) (by decide) (by decide) (by decide)).2 (by decide) (by decide)

end cloudwatch
